import Mathlib

/-!
# SME2 design: blocked tile kernel, benchmark harness and validation cases

A verification development for the three C programs of the repository
(`sme2_performance_benchmark.c`, `sme2_test_cases.c`, `sme2_software_test.c`).

Modelling conventions.

* A C `for` loop is `forLoop cond next body fuel start`: the loop header is kept as
  written (`cond`, `next`), the fuel is an explicit bound on the number of iterations,
  and the lemmas `forLoop_append` / `forLoop_foldl` show that the loops of the
  programs never run out of it.
* A function that issues tile intrinsics is embedded as the sequence of statement
  instances it executes (`List Ev`, built by the same loop nest as the source) together
  with a `step` function that gives each statement its meaning on the program state.
* A buffer is a map `Nat → α` from element offsets (relative to the base pointer) to
  values; offsets at or beyond the allocated length are representable, so that a tile
  access that runs past the end of a buffer is visible in the model.
* A tile register holds `W = 16` lanes of 32 bits (`Tile α = Fin 16 → α`).
* Loop counters and element offsets are natural numbers: the `int` arithmetic of the
  source does not overflow for the sizes the programs use (`n ≤ 1024`).
* Numbers are exact (`α` is a semiring, `ℤ` or `ℚ` in the concrete statements): rounding
  of IEEE-754 operations is not modelled.  Every concrete value the statements below
  evaluate is an integer below `2^24` or a dyadic rational with a short mantissa, on
  which single precision arithmetic is exact.
-/

namespace SME2

/-! ## Loops -/

/-- The C loop `for (x = start; cond x; x = next x) s = body x s`, cut after `fuel`
iterations. -/
def forLoop {σ : Type} (cond : Nat → Bool) (next : Nat → Nat) (body : Nat → σ → σ) :
    Nat → Nat → σ → σ
  | 0, _, s => s
  | fuel + 1, x, s =>
    if cond x then forLoop cond next body fuel (next x) (body x s) else s

/-! ## Tile registers and intrinsics -/

/-- Lanes of a 32-bit tile register. -/
abbrev W : Nat := 16

/-- A tile register of `W` lanes. -/
abbrev Tile (α : Type) := Fin W → α

/-- Lane index of a 32-bit tile register. -/
abbrev Tile.Lane := Fin W

/-- Intrinsic `svdup_f32(x)`: broadcast a scalar to every lane. -/
def svdup_f32 {α : Type} (x : α) : Tile α := fun _ => x

/-- Intrinsic `svld1_f32(svptrue_b32(), &buf[off])`: lane `l` receives `buf[off + l]`. -/
def svld1_f32 {α : Type} (buf : Nat → α) (off : Nat) : Tile α := fun l => buf (off + l.val)

/-- Intrinsic `svst1_f32(svptrue_b32(), &buf[off], t)`: `buf[off + l]` receives lane `l`,
for each of the `W` lanes. -/
def svst1_f32 {α : Type} (buf : Nat → α) (off : Nat) (t : Tile α) : Nat → α :=
  fun p => if h : off ≤ p ∧ p - off < W then t ⟨p - off, h.2⟩ else buf p

/-- Intrinsic `svmad_f32(svptrue_b32(), op1, op2, op3)`: lanewise `op1 * op2 + op3`. -/
def svmad_f32 {α : Type} [Mul α] [Add α] (op1 op2 op3 : Tile α) : Tile α :=
  fun l => op1 l * op2 l + op3 l

/-- Intrinsic `svmul_f32(svptrue_b32(), op1, op2)`: lanewise product. -/
def svmul_f32 {α : Type} [Mul α] (op1 op2 : Tile α) : Tile α := fun l => op1 l * op2 l

/-! ## Statement instances -/

/-- The buffers the programs hand to tile loads, tile stores and scalar reads. -/
inductive Buf
  | a | b | c
  | matrix_a | matrix_b | result
  | input_stream | output_stream
  | buffer
  | data1 | data2 | output
  | large_matrix_a | large_matrix_b
  deriving DecidableEq, Repr

/-- Tile intrinsics that touch registers only. -/
inductive RegOp
  | dup | mad | mul | mopa | add | xpdl | lasta
  deriving DecidableEq, Repr

/-- One executed statement of a tile routine. -/
inductive Ev
  /-- The statement `__arm_smstart(ZA)`. -/
  | smstart
  /-- The statement `__arm_smstop(ZA)`. -/
  | smstop
  /-- A tile load `svld1_f32(svptrue_b32(), &buf[off])`. -/
  | ld1 (buf : Buf) (off : Nat)
  /-- A tile store `svst1_f32(svptrue_b32(), &buf[off], ·)`. -/
  | st1 (buf : Buf) (off : Nat)
  /-- The innermost statement group of the blocked kernel at loop indices `ii jj kk`:
  two broadcasts of the scalars `a[ii][kk]`, `b[kk][jj]` and one `svmad_f32` into the
  accumulator. -/
  | mac (ii jj kk : Nat)
  /-- Any other intrinsic, working on registers only. -/
  | reg (op : RegOp)
  deriving DecidableEq, Repr

/-! ## The two matrix multiplication kernels -/

/-- Statement instances of `traditional_matmul`. -/
inductive TEv
  /-- The statement `float sum = 0.0f` of the `(i, j)` iteration. -/
  | init (i j : Nat)
  /-- The statement `sum += a[i * n + k] * b[k * n + j]`. -/
  | acc (i j k : Nat)
  /-- The statement `c[i * n + j] = sum`. -/
  | wr (i j : Nat)
  deriving DecidableEq, Repr

/-- Statements executed by `traditional_matmul(a, b, c, n)`, in order. -/
def traditional_matmul_trace (n : Nat) : List TEv :=
  forLoop (fun i => decide (i < n)) (· + 1) (fun i t =>
    forLoop (fun j => decide (j < n)) (· + 1) (fun j t =>
      let t := t ++ [TEv.init i j]
      let t := forLoop (fun k => decide (k < n)) (· + 1) (fun k t =>
        t ++ [TEv.acc i j k]) n 0 t
      t ++ [TEv.wr i j]) n 0 t) n 0 []

/-- Program state of `traditional_matmul`: the output buffer and the local `sum`. -/
structure TState (α : Type) where
  c : Nat → α
  sum : α

/-- Meaning of one statement of `traditional_matmul`. -/
def tstep {α : Type} [Mul α] [Add α] [Zero α] (a b : Nat → α) (n : Nat)
    (s : TState α) : TEv → TState α
  | .init _ _ => { s with sum := 0 }
  | .acc i j k => { s with sum := s.sum + a (i * n + k) * b (k * n + j) }
  | .wr i j => { s with c := Function.update s.c (i * n + j) s.sum }

/-- The output buffer after the statements `t` of `traditional_matmul` have run on the
output buffer `c`. -/
def traditional_run {α : Type} [Mul α] [Add α] [Zero α] (a b : Nat → α) (n : Nat)
    (t : List TEv) (c : Nat → α) : Nat → α :=
  (t.foldl (tstep a b n) ⟨c, 0⟩).c

/-- The function `traditional_matmul(a, b, c, n)`: the output buffer after the call. -/
def traditional_matmul {α : Type} [Mul α] [Add α] [Zero α] (a b c : Nat → α) (n : Nat) :
    Nat → α :=
  traditional_run a b n (traditional_matmul_trace n) c

/-- Statements executed by `sme2_matmul(a, b, c, n)`, in order. -/
def sme2_matmul_trace (n : Nat) : List Ev :=
  let t : List Ev := [Ev.smstart]
  let t := forLoop (fun i => decide (i < n)) (· + 16) (fun i t =>
    forLoop (fun j => decide (j < n)) (· + 16) (fun j t =>
      forLoop (fun k => decide (k < n)) (· + 16) (fun k t =>
        forLoop (fun ii => decide (ii < i + 16) && decide (ii < n)) (· + 1) (fun ii t =>
          forLoop (fun jj => decide (jj < j + 16) && decide (jj < n)) (· + 1) (fun jj t =>
            let t := t ++ [Ev.ld1 Buf.c (ii * n + jj)]
            let t := forLoop (fun kk => decide (kk < k + 16) && decide (kk < n)) (· + 1)
              (fun kk t => t ++ [Ev.mac ii jj kk]) 16 k t
            t ++ [Ev.st1 Buf.c (ii * n + jj)]) 16 j t) 16 i t) n 0 t) n 0 t) n 0 t
  t ++ [Ev.smstop]

/-- Program state of the blocked kernel: the output buffer and the accumulator tile. -/
structure KState (α : Type) where
  c : Nat → α
  acc : Tile α

/-- Meaning of one statement of the blocked kernel writing to buffer `out`, where
`rdA ii kk` and `rdB kk jj` are the scalars the innermost statement broadcasts. -/
def kstep {α : Type} [Mul α] [Add α] (out : Buf) (rdA rdB : Nat → Nat → α)
    (s : KState α) : Ev → KState α
  | .ld1 buf off => if buf = out then { s with acc := svld1_f32 s.c off } else s
  | .mac ii jj kk =>
    { s with acc := svmad_f32 (svdup_f32 (rdA ii kk)) (svdup_f32 (rdB kk jj)) s.acc }
  | .st1 buf off => if buf = out then { s with c := svst1_f32 s.c off s.acc } else s
  | _ => s

/-- The memory at and after the output buffer once the statements `t` of the blocked
kernel have run on the output buffer `c`; the accumulator is declared inside the loop
and is loaded before its first use. -/
def blocked_run {α : Type} [Mul α] [Add α] [Zero α] (out : Buf) (rdA rdB : Nat → Nat → α)
    (t : List Ev) (c : Nat → α) : Nat → α :=
  (t.foldl (kstep out rdA rdB) ⟨c, svdup_f32 0⟩).c

/-- The function `sme2_matmul(a, b, c, n)`: the memory at and after `c` when the call
returns, as element offsets from `c`. -/
def sme2_matmul {α : Type} [Mul α] [Add α] [Zero α] (a b c : Nat → α) (n : Nat) :
    Nat → α :=
  blocked_run Buf.c (fun ii kk => a (ii * n + kk)) (fun kk jj => b (kk * n + jj))
    (sme2_matmul_trace n) c

/-- Number of consecutive calls the harness makes per kernel and size. -/
def ITERATIONS : Nat := 10

/-- Output buffer `result_traditional` after the timing loop
`for (iter = 0; iter < ITERATIONS; iter++) traditional_matmul(a, b, result_traditional, n)`
of `performance_test`, started on the buffer `c`. -/
def traditional_iterations {α : Type} [Mul α] [Add α] [Zero α] (a b c : Nat → α)
    (n : Nat) : Nat → α :=
  forLoop (fun iter => decide (iter < ITERATIONS)) (· + 1)
    (fun _ c => traditional_matmul a b c n) ITERATIONS 0 c

/-- Output buffer `result_sme2` after the timing loop
`for (iter = 0; iter < ITERATIONS; iter++) sme2_matmul(a, b, result_sme2, n)`
of `performance_test`, started on the buffer `c`. -/
def sme2_iterations {α : Type} [Mul α] [Add α] [Zero α] (a b c : Nat → α)
    (n : Nat) : Nat → α :=
  forLoop (fun iter => decide (iter < ITERATIONS)) (· + 1)
    (fun _ c => sme2_matmul a b c n) ITERATIONS 0 c

/-- Relative agreement of `x` with the reference value `y` within `1e-3`:
`|x - y| ≤ 1e-3 * |y|`, written without division. -/
def withinRelTol {α : Type} [LinearOrderedRing α] (x y : α) : Prop :=
  1000 * |x - y| ≤ |y|

/-! ## Observations on statement sequences -/

/-- Element offsets touched by a tile access that starts at `off`. -/
def tileIdx (off : Nat) : List Nat := List.range' off W

/-- Element offsets of `buf` read by a tile load. -/
def Ev.loaded (buf : Buf) : Ev → List Nat
  | .ld1 bf off => if bf = buf then tileIdx off else []
  | _ => []

/-- Element offsets of `buf` written by a tile store. -/
def Ev.stored (buf : Buf) : Ev → List Nat
  | .st1 bf off => if bf = buf then tileIdx off else []
  | _ => []

/-- Elements read by a tile load, each with its buffer. -/
def Ev.loads : Ev → List (Buf × Nat)
  | .ld1 bf off => (tileIdx off).map (fun p => (bf, p))
  | _ => []

/-- Elements written by a tile store, each with its buffer. -/
def Ev.stores : Ev → List (Buf × Nat)
  | .st1 bf off => (tileIdx off).map (fun p => (bf, p))
  | _ => []

/-- Start offset of a tile load. -/
def Ev.loadOffset : Ev → Option Nat
  | .ld1 _ off => some off
  | _ => none

/-- Element offsets of `buf` touched by a tile load or a tile store. -/
def Ev.touched (buf : Buf) (e : Ev) : List Nat := e.loaded buf ++ e.stored buf

/-- Offsets `(ii * n + kk, kk * n + jj)` of the two scalars read by the innermost
statement of the blocked kernel, in the first and in the second input matrix. -/
def Ev.scalarReads (n : Nat) : Ev → List (Nat × Nat)
  | .mac ii jj kk => [(ii * n + kk, kk * n + jj)]
  | _ => []

/-- Loop indices `(ii, jj, kk)` of a multiply-accumulate of the blocked kernel. -/
def Ev.triple : Ev → Option (Nat × Nat × Nat)
  | .mac ii jj kk => some (ii, jj, kk)
  | _ => none

/-- Loop indices `(i, j, k)` of a multiply-accumulate of `traditional_matmul`. -/
def TEv.triple : TEv → Option (Nat × Nat × Nat)
  | .acc i j k => some (i, j, k)
  | _ => none

/-- Multiply-accumulates of `sme2_matmul(·, ·, ·, n)` in execution order. -/
def sme2_matmul_macs (n : Nat) : List (Nat × Nat × Nat) :=
  (sme2_matmul_trace n).filterMap Ev.triple

/-- Multiply-accumulates of `traditional_matmul(·, ·, ·, n)` in execution order. -/
def traditional_matmul_macs (n : Nat) : List (Nat × Nat × Nat) :=
  (traditional_matmul_trace n).filterMap TEv.triple

/-- The `k` indices accumulated for output position `(i, j)`, in execution order. -/
def kOrder (macs : List (Nat × Nat × Nat)) (i j : Nat) : List Nat :=
  (macs.filter (fun t => decide (t.1 = i ∧ t.2.1 = j))).map (fun t => t.2.2)

/-! ## Streaming mode session -/

/-- State of the streaming/ZA mode flag. -/
inductive ZA
  | Inactive | Active
  deriving DecidableEq, Repr

/-- One statement against the session flag: `none` is a contract violation
(enter while Active, exit while Inactive, tile operation while Inactive). -/
def zaStep : ZA → Ev → Option ZA
  | .Inactive, .smstart => some .Active
  | .Active, .smstart => none
  | .Active, .smstop => some .Inactive
  | .Inactive, .smstop => none
  | .Active, _ => some .Active
  | .Inactive, _ => none

/-- Run a statement sequence against the session flag. -/
def zaRun : ZA → List Ev → Option ZA
  | z, [] => some z
  | z, e :: t => (zaStep z e).bind (fun z => zaRun z t)

/-- Number of `__arm_smstart(ZA)` statements executed. -/
def enters (t : List Ev) : Nat := t.count Ev.smstart

/-- Number of `__arm_smstop(ZA)` statements executed. -/
def exits (t : List Ev) : Nat := t.count Ev.smstop

/-- Session discipline of an entry point called with the flag Inactive: no contract
violation, return with the flag Inactive, as many enters as exits. -/
def disciplined (t : List Ev) : Prop :=
  zaRun ZA.Inactive t = some ZA.Inactive ∧ enters t = exits t

/-! ## Validation cases of `sme2_test_cases.c` -/

/-- Statements executed by `testcase_za_basic_ops`. -/
def testcase_za_basic_ops_trace : List Ev :=
  [Ev.smstart, Ev.reg RegOp.dup, Ev.reg RegOp.mad, Ev.smstop]

/-- Statements executed by `testcase_different_data_types`. -/
def testcase_different_data_types_trace : List Ev :=
  [Ev.smstart,
   Ev.reg RegOp.dup, Ev.reg RegOp.add,
   Ev.reg RegOp.dup, Ev.reg RegOp.mul,
   Ev.reg RegOp.dup, Ev.reg RegOp.mul,
   Ev.reg RegOp.lasta, Ev.reg RegOp.lasta, Ev.reg RegOp.lasta,
   Ev.smstop]

/-- Lanes of an 8-bit tile register (same register width as `W` lanes of 32 bits). -/
abbrev W8 : Nat := 64

/-- Lanes of a 16-bit tile register. -/
abbrev W16 : Nat := 32

/-- Reduction of an integer to the signed 8-bit range, modulo `2^8`. -/
def wrap8 (x : Int) : Int := (x + 128) % 256 - 128

/-- Intrinsic `svdup_s8(x)`. -/
def svdup_s8 (x : Int) : Fin W8 → Int := fun _ => wrap8 x

/-- Intrinsic `svadd_s8(svptrue_b8(), op1, op2)`: lanewise sum in signed 8-bit
arithmetic. -/
def svadd_s8 (op1 op2 : Fin W8 → Int) : Fin W8 → Int := fun l => wrap8 (op1 l + op2 l)

/-- Intrinsic `svdup_f16(x)`. -/
def svdup_f16 (x : ℚ) : Fin W16 → ℚ := fun _ => x

/-- Intrinsic `svmul_f16(svptrue_b16(), op1, op2)`: lanewise product. -/
def svmul_f16 (op1 op2 : Fin W16 → ℚ) : Fin W16 → ℚ := fun l => op1 l * op2 l

/-- Intrinsics `svlasta_*(svptrue_*(), v)`: the element after the last active one; with
every lane active that is, modulo the number of lanes, lane `0`. -/
def svlasta {α : Type} {w : Nat} (v : Fin (w + 1) → α) : α := v 0

/-- The three result tiles of `testcase_different_data_types`. -/
structure DataTypeTiles where
  result_i8 : Fin W8 → Int
  result_f16 : Fin W16 → ℚ
  result_f32 : Tile ℚ

/-- The tiles `result_i8`, `result_f16`, `result_f32` computed by
`testcase_different_data_types`. -/
def testcase_different_data_types : DataTypeTiles :=
  let int8_tile := svdup_s8 127
  let result_i8 := svadd_s8 int8_tile int8_tile
  let f16_tile := svdup_f16 (3 / 2)
  let result_f16 := svmul_f16 f16_tile f16_tile
  let f32_tile : Tile ℚ := svdup_f32 (5 / 2)
  let result_f32 := svmul_f32 f32_tile f32_tile
  ⟨result_i8, result_f16, result_f32⟩

/-- The three samples printed by `testcase_different_data_types`. -/
def testcase_different_data_types_samples : Int × ℚ × ℚ :=
  (svlasta testcase_different_data_types.result_i8,
   svlasta testcase_different_data_types.result_f16,
   svlasta testcase_different_data_types.result_f32)

/-- The arrays `matrix_a`, `matrix_b`, `result` of
`testcase_large_matrix_block_processing`, as flat row-major buffers of 128 x 128
elements. -/
structure LargeMatrices (α : Type) where
  matrix_a : Nat → α
  matrix_b : Nat → α
  result : Nat → α

/-- The initialisation loops of `testcase_large_matrix_block_processing`, run on the
zero-initialised static arrays. -/
def testcase_large_matrix_init {α : Type} [NatCast α] [Zero α] : LargeMatrices α :=
  let matrix_size := 128
  forLoop (fun i => decide (i < matrix_size)) (· + 1) (fun i s =>
    forLoop (fun j => decide (j < matrix_size)) (· + 1) (fun j s =>
      { matrix_a := Function.update s.matrix_a (i * 128 + j) ((i * matrix_size + j : Nat) : α)
        matrix_b := Function.update s.matrix_b (i * 128 + j) ((j * matrix_size + i : Nat) : α)
        result := Function.update s.result (i * 128 + j) 0 }) matrix_size 0 s) matrix_size 0
    ⟨fun _ => 0, fun _ => 0, fun _ => 0⟩

/-- Statements executed by `testcase_large_matrix_block_processing` after the
initialisation; `&result[i][j]` is element offset `i * 128 + j` of `result`. -/
def testcase_large_matrix_block_processing_trace : List Ev :=
  let matrix_size := 128
  let block_size := 16
  let t : List Ev := [Ev.smstart]
  let t := forLoop (fun bi => decide (bi < matrix_size)) (· + block_size) (fun bi t =>
    forLoop (fun bj => decide (bj < matrix_size)) (· + block_size) (fun bj t =>
      forLoop (fun bk => decide (bk < matrix_size)) (· + block_size) (fun bk t =>
        forLoop (fun i => decide (i < bi + block_size) && decide (i < matrix_size)) (· + 1)
          (fun i t =>
          forLoop (fun j => decide (j < bj + block_size) && decide (j < matrix_size)) (· + 1)
            (fun j t =>
            let t := t ++ [Ev.ld1 Buf.result (i * 128 + j)]
            let t := forLoop
              (fun k => decide (k < bk + block_size) && decide (k < matrix_size)) (· + 1)
              (fun k t => t ++ [Ev.mac i j k]) block_size bk t
            t ++ [Ev.st1 Buf.result (i * 128 + j)]) block_size bj t) block_size bi t)
        matrix_size 0 t) matrix_size 0 t) matrix_size 0 t
  t ++ [Ev.smstop]

/-- The blocked loop of `testcase_large_matrix_block_processing` run on the arrays `m`:
the array `result` afterwards (and the memory after it), as element offsets from
`&result[0][0]`. -/
def testcase_large_matrix_blocked_loop {α : Type} [Mul α] [Add α] [Zero α]
    (m : LargeMatrices α) : Nat → α :=
  blocked_run Buf.result (fun i k => m.matrix_a (i * 128 + k))
    (fun k j => m.matrix_b (k * 128 + j)) testcase_large_matrix_block_processing_trace m.result

/-- The array `result` at the end of `testcase_large_matrix_block_processing`:
initialisation followed by the blocked loop. -/
def testcase_large_matrix_block_processing {α : Type} [NatCast α] [Mul α] [Add α] [Zero α] :
    Nat → α :=
  testcase_large_matrix_blocked_loop testcase_large_matrix_init

/-- The direct triple-sum value of cell `(i, j)` for the inputs of
`testcase_large_matrix_block_processing`: the sum over `k = 0..127` of
`(i * 128 + k) * (j * 128 + k)`. -/
def largeExpected (i j : Nat) : Int :=
  ((List.range 128).map (fun k => ((i * 128 + k : Nat) : Int) * ((j * 128 + k : Nat) : Int))).sum

/-- The arrays `input_stream` and `output_stream` of
`testcase_streaming_data_processing`. -/
structure StreamArrays where
  input_stream : Nat → ℚ
  output_stream : Nat → ℚ

/-- The initialisation loop of `testcase_streaming_data_processing`, run on the
zero-initialised static arrays: `input_stream[i] = (float)i * 0.5f`,
`output_stream[i] = 0.0f`. -/
def testcase_streaming_init : StreamArrays :=
  let stream_length := 1024
  forLoop (fun i => decide (i < stream_length)) (· + 1) (fun i s =>
    { input_stream := Function.update s.input_stream i ((i : ℚ) * (1 / 2))
      output_stream := Function.update s.output_stream i 0 }) stream_length 0
    ⟨fun _ => 0, fun _ => 0⟩

/-- Statements executed by `testcase_streaming_data_processing` after the
initialisation. -/
def testcase_streaming_data_processing_trace : List Ev :=
  let stream_length := 1024
  let t : List Ev := [Ev.smstart]
  let t := forLoop (fun i => decide (i < stream_length)) (· + 16) (fun i t =>
    t ++ [Ev.ld1 Buf.input_stream i, Ev.reg RegOp.dup, Ev.reg RegOp.mul,
          Ev.st1 Buf.output_stream i]) stream_length 0 t
  t ++ [Ev.smstop]

/-- Program state of the tile loop of `testcase_streaming_data_processing`: the output
array, the tiles `data` and `transformed`, and the operand `svdup_f32(2.0f)`. -/
structure StreamState where
  output_stream : Nat → ℚ
  data : Tile ℚ
  tmp : Tile ℚ
  transformed : Tile ℚ

/-- Meaning of one statement of the tile loop of `testcase_streaming_data_processing`,
which reads the array `input`:
`data = svld1_f32(.., &input_stream[i])`, the operand `svdup_f32(2.0f)`,
`transformed = svmul_f32(.., data, ·)`, `svst1_f32(.., &output_stream[i], transformed)`. -/
def sstep (input : Nat → ℚ) (s : StreamState) : Ev → StreamState
  | .ld1 Buf.input_stream off => { s with data := svld1_f32 input off }
  | .reg RegOp.dup => { s with tmp := svdup_f32 2 }
  | .reg RegOp.mul => { s with transformed := svmul_f32 s.data s.tmp }
  | .st1 Buf.output_stream off =>
    { s with output_stream := svst1_f32 s.output_stream off s.transformed }
  | _ => s

/-- The two arrays after the statements `t` of the tile loop have run on the arrays
`a`; no statement writes `input_stream`. -/
def stream_run (t : List Ev) (a : StreamArrays) : StreamArrays :=
  { input_stream := a.input_stream
    output_stream := (t.foldl (sstep a.input_stream)
      ⟨a.output_stream, svdup_f32 0, svdup_f32 0, svdup_f32 0⟩).output_stream }

/-- The arrays `input_stream` and `output_stream` at the end of
`testcase_streaming_data_processing`. -/
def testcase_streaming_data_processing : StreamArrays :=
  stream_run testcase_streaming_data_processing_trace testcase_streaming_init

/-- Statements executed by `testcase_mixed_precision_computation`. -/
def testcase_mixed_precision_computation_trace : List Ev :=
  [Ev.smstart, Ev.reg RegOp.dup, Ev.reg RegOp.dup, Ev.reg RegOp.xpdl, Ev.reg RegOp.add,
   Ev.reg RegOp.lasta, Ev.smstop]

/-! ## Validation routines of `sme2_software_test.c` -/

/-- Statements executed by `test_za_storage`. -/
def test_za_storage_trace : List Ev :=
  [Ev.smstart, Ev.reg RegOp.dup, Ev.reg RegOp.dup, Ev.reg RegOp.dup, Ev.reg RegOp.mopa,
   Ev.smstop]

/-- Statements executed by `test_multi_vector_operations`. -/
def test_multi_vector_operations_trace : List Ev :=
  [Ev.smstart, Ev.ld1 Buf.data1 0, Ev.ld1 Buf.data2 0, Ev.reg RegOp.dup, Ev.reg RegOp.mad,
   Ev.st1 Buf.output 0, Ev.smstop]

/-- The constant `TILE_SIZE`. -/
def TILE_SIZE : Nat := 16

/-- The constant `TEST_SIZE`. -/
def TEST_SIZE : Nat := 1024

/-- Statements executed by `test_matrix_multiplication` after the initialisation;
`&m[i][k]` is element offset `i * TILE_SIZE + k` of the array `m`. -/
def test_matrix_multiplication_trace : List Ev :=
  let t : List Ev := [Ev.smstart]
  let t := forLoop (fun i => decide (i < TILE_SIZE)) (· + 4) (fun i t =>
    forLoop (fun j => decide (j < TILE_SIZE)) (· + 4) (fun j t =>
      forLoop (fun k => decide (k < TILE_SIZE)) (· + 4) (fun k t =>
        t ++ [Ev.ld1 Buf.matrix_a (i * TILE_SIZE + k), Ev.ld1 Buf.matrix_b (k * TILE_SIZE + j),
              Ev.ld1 Buf.result (i * TILE_SIZE + j), Ev.reg RegOp.mopa,
              Ev.st1 Buf.result (i * TILE_SIZE + j)]) TILE_SIZE 0 t) TILE_SIZE 0 t) TILE_SIZE 0 t
  t ++ [Ev.smstop]

/-- Statements executed by `benchmark_sme2_operation` after the initialisation. -/
def benchmark_sme2_operation_trace : List Ev :=
  let t : List Ev := [Ev.smstart]
  let t := forLoop (fun i => decide (i < TEST_SIZE)) (· + 16) (fun i t =>
    t ++ [Ev.ld1 Buf.large_matrix_a i, Ev.ld1 Buf.large_matrix_b i, Ev.reg RegOp.mul])
    TEST_SIZE 0 t
  t ++ [Ev.smstop]

/-! ## Benchmark harness of `sme2_performance_benchmark.c` -/

/-- The constant `MIN_MATRIX_SIZE`. -/
def MIN_MATRIX_SIZE : Nat := 64

/-- The constant `MAX_MATRIX_SIZE`. -/
def MAX_MATRIX_SIZE : Nat := 1024

/-- The constant `STEP_SIZE`. -/
def STEP_SIZE : Nat := 64

/-- The four buffers `performance_test` allocates per size. -/
inductive PBuf
  | matrix_a | matrix_b | result_traditional | result_sme2
  deriving DecidableEq, Repr

/-- One executed step of `performance_test`. -/
inductive HEv
  /-- The line `Testing matrix size: ...` that opens the iteration for `size`. -/
  | visit (size : Nat)
  /-- A call of `malloc` for buffer `which`; `ok` tells whether it returned non-null. -/
  | malloc (size : Nat) (which : PBuf) (ok : Bool)
  /-- The line `Memory allocation failed for size ...`, followed by `continue`. -/
  | allocFailed (size : Nat)
  /-- A call of `generate_random_matrix` on an input buffer. -/
  | generate (size : Nat) (which : PBuf)
  /-- A call of `memset(·, 0, ·)` on an output buffer. -/
  | memset (size : Nat) (which : PBuf)
  /-- One call `traditional_matmul(matrix_a, matrix_b, result_traditional, size)`. -/
  | traditional (size : Nat)
  /-- One call `sme2_matmul(matrix_a, matrix_b, result_sme2, size)`. -/
  | sme2 (size : Nat)
  /-- The three result lines (times, GFLOPS, speedup) for `size`. -/
  | report (size : Nat)
  /-- A call of `free` on buffer `which`. -/
  | free (size : Nat) (which : PBuf)
  deriving DecidableEq, Repr

/-- Steps executed by `performance_test`, where `alloc size which` tells whether the
`malloc` for buffer `which` at `size` succeeds. -/
def performance_test_trace (alloc : Nat → PBuf → Bool) : List HEv :=
  forLoop (fun size => decide (size ≤ MAX_MATRIX_SIZE)) (· + STEP_SIZE) (fun size t =>
    let t := t ++ [HEv.visit size]
    let matrix_a := alloc size PBuf.matrix_a
    let matrix_b := alloc size PBuf.matrix_b
    let result_traditional := alloc size PBuf.result_traditional
    let result_sme2 := alloc size PBuf.result_sme2
    let t := t ++ [HEv.malloc size PBuf.matrix_a matrix_a, HEv.malloc size PBuf.matrix_b matrix_b,
      HEv.malloc size PBuf.result_traditional result_traditional,
      HEv.malloc size PBuf.result_sme2 result_sme2]
    if !matrix_a || !matrix_b || !result_traditional || !result_sme2 then
      t ++ [HEv.allocFailed size]
    else
      let t := t ++ [HEv.generate size PBuf.matrix_a, HEv.generate size PBuf.matrix_b,
        HEv.memset size PBuf.result_traditional, HEv.memset size PBuf.result_sme2]
      let t := forLoop (fun iter => decide (iter < ITERATIONS)) (· + 1)
        (fun _ t => t ++ [HEv.traditional size]) ITERATIONS 0 t
      let t := forLoop (fun iter => decide (iter < ITERATIONS)) (· + 1)
        (fun _ t => t ++ [HEv.sme2 size]) ITERATIONS 0 t
      let t := t ++ [HEv.report size]
      t ++ [HEv.free size PBuf.matrix_a, HEv.free size PBuf.matrix_b,
        HEv.free size PBuf.result_traditional, HEv.free size PBuf.result_sme2])
    16 MIN_MATRIX_SIZE []

/-- Tile statements executed inside one step of `performance_test`. -/
def HEv.statements : HEv → List Ev
  | .sme2 size => sme2_matmul_trace size
  | _ => []

/-- Tile statements executed by `performance_test`, in order. -/
def performance_test_statements (alloc : Nat → PBuf → Bool) : List Ev :=
  (performance_test_trace alloc).flatMap HEv.statements

/-- Buffers of `performance_test` that were obtained and never passed to `free`. -/
def leaked (t : List HEv) : List (Nat × PBuf) :=
  (t.filterMap (fun e => match e with
    | .malloc size which true => some (size, which)
    | _ => none)).filter (fun x => !(t.contains (HEv.free x.1 x.2)))

/-- The size a step of the sweep opens, if it opens one. -/
def HEv.visitSize : HEv → Option Nat
  | .visit size => some size
  | _ => none

/-- Sizes visited by the sweep, in order. -/
def visited (t : List HEv) : List Nat := t.filterMap HEv.visitSize

/-- The constant `buffer_size` of `memory_bandwidth_test`. -/
def buffer_size : Nat := 1024 * 1024

/-- The constant `sizeof(float)`. -/
def sizeof_float : Nat := 4

/-- The initialisation loop of `memory_bandwidth_test`: `buffer[i] = (float)i`, on a
freshly allocated buffer with contents `m`. -/
def memory_bandwidth_init (m : Nat → ℚ) : Nat → ℚ :=
  forLoop (fun i => decide (i < buffer_size)) (· + 1) (fun i m =>
    Function.update m i (i : ℚ)) buffer_size 0 m

/-- Statements executed by `memory_bandwidth_test`; `allocOk` tells whether the
`malloc` of the buffer succeeds. -/
def memory_bandwidth_test_trace (allocOk : Bool) : List Ev :=
  if !allocOk then
    []
  else
    let t : List Ev := [Ev.smstart]
    let t := forLoop (fun i => decide (i < buffer_size)) (· + 16) (fun i t =>
      t ++ [Ev.ld1 Buf.buffer i, Ev.st1 Buf.buffer i]) buffer_size 0 t
    t ++ [Ev.smstop]

/-- Program state of the tile loop of `memory_bandwidth_test`. -/
structure BwState (α : Type) where
  buffer : Nat → α
  data : Tile α

/-- Meaning of one statement of the tile loop of `memory_bandwidth_test`. -/
def bstep {α : Type} (s : BwState α) : Ev → BwState α
  | .ld1 Buf.buffer off => { s with data := svld1_f32 s.buffer off }
  | .st1 Buf.buffer off => { s with buffer := svst1_f32 s.buffer off s.data }
  | _ => s

/-- The buffer after the statements `t` of the tile loop of `memory_bandwidth_test`
have run on the buffer `buf`. -/
def bandwidth_run (t : List Ev) (buf : Nat → ℚ) : Nat → ℚ :=
  (t.foldl bstep ⟨buf, svdup_f32 0⟩).buffer

/-- The buffer of `memory_bandwidth_test` after the tile loop, for a successful
allocation that returned memory with contents `m`. -/
def memory_bandwidth_test_buffer (m : Nat → ℚ) : Nat → ℚ :=
  bandwidth_run (memory_bandwidth_test_trace true) (memory_bandwidth_init m)

/-- The value `bytes_processed = buffer_size * sizeof(float) * 2`. -/
def bytes_processed : Nat := buffer_size * sizeof_float * 2

/-- The value `bandwidth_gb_s = (bytes_processed / elapsed) / (1024.0 * 1024.0 * 1024.0)`. -/
def bandwidth_gb_s (elapsed : ℚ) : ℚ :=
  ((bytes_processed : ℚ) / elapsed) / (1024 * 1024 * 1024)

/-! ## Auxiliary definitions used in the proofs -/

/-- Number of iterations of `for (x = lo; x < hi; x += st)`. -/
def iters (lo hi st : Nat) : Nat := (hi - lo + st - 1) / st

/-- Start offsets of the 16-wide blocks of `[0, n)`. -/
def blocks (n : Nat) : List Nat := List.range' 0 ((n + 15) / 16) 16

/-- Indices of the block that starts at `lo`, truncated at `n`. -/
def els (lo n : Nat) : List Nat := List.range' lo (min (lo + 16) n - lo)

/-- The loop nest shared by `sme2_matmul` and `testcase_large_matrix_block_processing`,
with the output buffer as a parameter. -/
def blocked_trace (out : Buf) (n : Nat) : List Ev :=
  let t : List Ev := [Ev.smstart]
  let t := forLoop (fun i => decide (i < n)) (· + 16) (fun i t =>
    forLoop (fun j => decide (j < n)) (· + 16) (fun j t =>
      forLoop (fun k => decide (k < n)) (· + 16) (fun k t =>
        forLoop (fun ii => decide (ii < i + 16) && decide (ii < n)) (· + 1) (fun ii t =>
          forLoop (fun jj => decide (jj < j + 16) && decide (jj < n)) (· + 1) (fun jj t =>
            let t := t ++ [Ev.ld1 out (ii * n + jj)]
            let t := forLoop (fun kk => decide (kk < k + 16) && decide (kk < n)) (· + 1)
              (fun kk t => t ++ [Ev.mac ii jj kk]) 16 k t
            t ++ [Ev.st1 out (ii * n + jj)]) 16 j t) 16 i t) n 0 t) n 0 t) n 0 t
  t ++ [Ev.smstop]

/-- The statements of one `(ii, jj)` iteration inside the `k`-block starting at `k`. -/
def unit (out : Buf) (n k ii jj : Nat) : List Ev :=
  [Ev.ld1 out (ii * n + jj)] ++ (els k n).flatMap (fun kk => [Ev.mac ii jj kk])
    ++ [Ev.st1 out (ii * n + jj)]

/-- The statements of the six nested loops of the blocked kernel. -/
def nest (out : Buf) (n : Nat) : List Ev :=
  (blocks n).flatMap fun i => (blocks n).flatMap fun j => (blocks n).flatMap fun k =>
    (els i n).flatMap fun ii => (els j n).flatMap fun jj => unit out n k ii jj

/-- The multiply-accumulates of the six nested loops, in execution order. -/
def nestMacs (n : Nat) : List (Nat × Nat × Nat) :=
  (blocks n).flatMap fun i => (blocks n).flatMap fun j => (blocks n).flatMap fun k =>
    (els i n).flatMap fun ii => (els j n).flatMap fun jj =>
      (els k n).map fun kk => (ii, jj, kk)

/-- The statements of one `(i, j)` iteration of `traditional_matmul`. -/
def tunit (n i j : Nat) : List TEv :=
  [TEv.init i j] ++ (List.range n).flatMap (fun k => [TEv.acc i j k]) ++ [TEv.wr i j]

/-- All index triples below `n`, in lexicographic order. -/
def lexTriples (n : Nat) : List (Nat × Nat × Nat) :=
  (List.range n).flatMap fun i => (List.range n).flatMap fun j =>
    (List.range n).map fun k => (i, j, k)

/-- Whether the tile at `&c[ii * n + jj]` covers element offset `p`. -/
def hit (n p : Nat) (t : Nat × Nat × Nat) : Bool :=
  decide (t.1 * n + t.2.1 ≤ p ∧ p - (t.1 * n + t.2.1) < W)

/-- One multiply-accumulate applied to a single lane. -/
def macLane {α : Type} [Mul α] [Add α] (rdA rdB : Nat → Nat → α) (v : α)
    (t : Nat × Nat × Nat) : α :=
  rdA t.1 t.2.2 * rdB t.2.2 t.2.1 + v

/-- Contents of the three arrays of `testcase_large_matrix_block_processing` once the
initialisation loops have passed the first `bound` elements. -/
def largeInv {α : Type} [NatCast α] [Zero α] (bound : Nat) (s : LargeMatrices α) : Prop :=
  ∀ p, s.matrix_a p = (if p < bound then ((p : Nat) : α) else 0)
    ∧ s.matrix_b p = (if p < bound then (((p % 128) * 128 + p / 128 : Nat) : α) else 0)
    ∧ s.result p = 0

/-- Contents of the two arrays of `testcase_streaming_data_processing` once the
initialisation loop has passed the first `bound` elements. -/
def streamInv (bound : Nat) (s : StreamArrays) : Prop :=
  ∀ p, s.input_stream p = (if p < bound then (p : ℚ) * (1 / 2) else 0) ∧ s.output_stream p = 0

/-- The statements of one iteration of the tile loop of
`testcase_streaming_data_processing`. -/
def streamUnit (i : Nat) : List Ev :=
  [Ev.ld1 Buf.input_stream i, Ev.reg RegOp.dup, Ev.reg RegOp.mul, Ev.st1 Buf.output_stream i]

/-- The statements of one iteration of the tile loop of `memory_bandwidth_test`. -/
def bandwidthUnit (i : Nat) : List Ev :=
  [Ev.ld1 Buf.buffer i, Ev.st1 Buf.buffer i]

/-- The steps of one iteration of the size sweep of `performance_test`. -/
def sizeSteps (alloc : Nat → PBuf → Bool) (size : Nat) : List HEv :=
  [HEv.visit size]
    ++ [HEv.malloc size PBuf.matrix_a (alloc size PBuf.matrix_a),
        HEv.malloc size PBuf.matrix_b (alloc size PBuf.matrix_b),
        HEv.malloc size PBuf.result_traditional (alloc size PBuf.result_traditional),
        HEv.malloc size PBuf.result_sme2 (alloc size PBuf.result_sme2)]
    ++ (if !alloc size PBuf.matrix_a || !alloc size PBuf.matrix_b
          || !alloc size PBuf.result_traditional || !alloc size PBuf.result_sme2 then
        [HEv.allocFailed size]
      else
        [HEv.generate size PBuf.matrix_a, HEv.generate size PBuf.matrix_b,
          HEv.memset size PBuf.result_traditional, HEv.memset size PBuf.result_sme2]
        ++ (List.range' 0 10).flatMap (fun _ => [HEv.traditional size])
        ++ (List.range' 0 10).flatMap (fun _ => [HEv.sme2 size])
        ++ [HEv.report size]
        ++ [HEv.free size PBuf.matrix_a, HEv.free size PBuf.matrix_b,
          HEv.free size PBuf.result_traditional, HEv.free size PBuf.result_sme2])

/-- Whether a statement is a tile operation (anything but entering or leaving the
streaming mode). -/
def Ev.isTile : Ev → Bool
  | .smstart => false
  | .smstop => false
  | _ => true

/-- The product contributed by one multiply-accumulate. -/
def macTerm {α : Type} [Mul α] (rdA rdB : Nat → Nat → α) (t : Nat × Nat × Nat) : α :=
  rdA t.1 t.2.2 * rdB t.2.2 t.2.1

/-- The inner product of row `i` of `a` and column `j` of `b`, accumulated from zero in
increasing `k`. -/
def dot {α : Type} [Mul α] [Add α] [Zero α] (a b : Nat → α) (n i j : Nat) : α :=
  (List.range n).foldl (fun s k => s + a (i * n + k) * b (k * n + j)) 0

end SME2

/-! # Theorems -/

namespace SME2

/-! ## Loops -/

theorem iters_of_not_lt {lo hi st : Nat} (hst : 0 < st) (h : ¬ lo < hi) :
    iters lo hi st = 0 := by
  unfold iters
  have : hi - lo = 0 := by omega
  rw [this]
  exact Nat.div_eq_of_lt (by omega)

theorem iters_of_lt {lo hi st : Nat} (hst : 0 < st) (h : lo < hi) :
    iters lo hi st = iters (lo + st) hi st + 1 := by
  unfold iters
  by_cases h2 : lo + st ≤ hi
  · have : hi - lo + st - 1 = (hi - (lo + st) + st - 1) + st := by omega
    rw [this, Nat.add_div_right _ hst]
  · have h3 : hi - (lo + st) = 0 := by omega
    rw [h3]
    have h4 : (0 + st - 1) / st = 0 := Nat.div_eq_of_lt (by omega)
    rw [h4]
    apply Nat.div_eq_of_lt_le <;> omega

/-- A counting loop with enough fuel is the left fold of its body over the loop
indices `lo, lo + st, ...` below `hi`; in particular its result does not depend on the
fuel. -/
theorem forLoop_foldl {σ : Type} {cond : Nat → Bool} {next : Nat → Nat}
    {body : Nat → σ → σ} (hi st : Nat) (hst : 0 < st)
    (hc : ∀ x, cond x = decide (x < hi)) (hn : ∀ x, next x = x + st) :
    ∀ (fuel lo : Nat) (s : σ), hi ≤ lo + fuel * st →
      forLoop cond next body fuel lo s
        = (List.range' lo (iters lo hi st) st).foldl (fun s x => body x s) s := by
  intro fuel
  induction fuel with
  | zero =>
    intro lo s h
    have : ¬ lo < hi := by omega
    simp [forLoop, iters_of_not_lt hst this]
  | succ fuel ih =>
    intro lo s h
    by_cases hlt : lo < hi
    · have h2 : hi ≤ (lo + st) + fuel * st := by
        have : (fuel + 1) * st = fuel * st + st := Nat.succ_mul fuel st
        omega
      simp only [forLoop, hc, hlt, decide_True, if_true, hn]
      rw [ih (lo + st) (body lo s) h2, iters_of_lt hst hlt]
      simp [List.range'_succ]
    · simp [forLoop, hc, hlt, iters_of_not_lt hst hlt]

/-- A counting loop whose body appends `f x` to a list appends the concatenation of
`f` over the loop indices. -/
theorem forLoop_append {ε : Type} {cond : Nat → Bool} {next : Nat → Nat}
    {body : Nat → List ε → List ε} (f : Nat → List ε) (hi st : Nat) (hst : 0 < st)
    (hc : ∀ x, cond x = decide (x < hi)) (hn : ∀ x, next x = x + st)
    (hb : ∀ x t, body x t = t ++ f x) (fuel lo : Nat) (t : List ε)
    (hf : hi ≤ lo + fuel * st) :
    forLoop cond next body fuel lo t
      = t ++ (List.range' lo (iters lo hi st) st).flatMap f := by
  rw [forLoop_foldl hi st hst hc hn fuel lo t hf]
  generalize List.range' lo (iters lo hi st) st = l
  induction l generalizing t with
  | nil => simp
  | cons x l ih => rw [List.foldl_cons, hb, ih, List.flatMap_cons, List.append_assoc]

theorem iters_block (n : Nat) : iters 0 n 16 = (n + 15) / 16 := by
  simp [iters]

theorem iters_els (lo n : Nat) : iters lo (min (lo + 16) n) 1 = min (lo + 16) n - lo := by
  simp [iters]

theorem cond_els (lo n x : Nat) :
    (decide (x < lo + 16) && decide (x < n)) = decide (x < min (lo + 16) n) := by
  simp [Nat.lt_min]

/-! ## Flat form of the blocked loop nest -/

theorem sme2_matmul_trace_blocked (n : Nat) :
    sme2_matmul_trace n = blocked_trace Buf.c n := rfl

theorem testcase_large_trace_blocked :
    testcase_large_matrix_block_processing_trace = blocked_trace Buf.result 128 := rfl

theorem blocked_trace_eq (out : Buf) (n : Nat) :
    blocked_trace out n = [Ev.smstart] ++ nest out n ++ [Ev.smstop] := by
  have hk : ∀ k ii jj (t : List Ev),
      forLoop (fun kk => decide (kk < k + 16) && decide (kk < n)) (· + 1)
        (fun kk t => t ++ [Ev.mac ii jj kk]) 16 k t
        = t ++ (els k n).flatMap (fun kk => [Ev.mac ii jj kk]) := by
    intro k ii jj t
    rw [forLoop_append (fun kk => [Ev.mac ii jj kk]) (min (k + 16) n) 1 Nat.one_pos
      (cond_els k n) (fun _ => rfl) (fun _ _ => rfl) 16 k t (by omega), iters_els]
    rfl
  have hjj : ∀ k ii j (t : List Ev),
      forLoop (fun jj => decide (jj < j + 16) && decide (jj < n)) (· + 1) (fun jj t =>
        let t := t ++ [Ev.ld1 out (ii * n + jj)]
        let t := forLoop (fun kk => decide (kk < k + 16) && decide (kk < n)) (· + 1)
          (fun kk t => t ++ [Ev.mac ii jj kk]) 16 k t
        t ++ [Ev.st1 out (ii * n + jj)]) 16 j t
        = t ++ (els j n).flatMap (fun jj => unit out n k ii jj) := by
    intro k ii j t
    rw [forLoop_append (fun jj => unit out n k ii jj) (min (j + 16) n) 1 Nat.one_pos
      (cond_els j n) (fun _ => rfl) _ 16 j t (by omega), iters_els]
    · rfl
    · intro jj t
      simp only [hk, unit, List.append_assoc]
  have hii : ∀ k i j (t : List Ev),
      forLoop (fun ii => decide (ii < i + 16) && decide (ii < n)) (· + 1) (fun ii t =>
        forLoop (fun jj => decide (jj < j + 16) && decide (jj < n)) (· + 1) (fun jj t =>
          let t := t ++ [Ev.ld1 out (ii * n + jj)]
          let t := forLoop (fun kk => decide (kk < k + 16) && decide (kk < n)) (· + 1)
            (fun kk t => t ++ [Ev.mac ii jj kk]) 16 k t
          t ++ [Ev.st1 out (ii * n + jj)]) 16 j t) 16 i t
        = t ++ (els i n).flatMap (fun ii => (els j n).flatMap fun jj => unit out n k ii jj) := by
    intro k i j t
    rw [forLoop_append (fun ii => (els j n).flatMap fun jj => unit out n k ii jj)
      (min (i + 16) n) 1 Nat.one_pos (cond_els i n) (fun _ => rfl) _ 16 i t (by omega),
      iters_els]
    · rfl
    · intro ii t
      exact hjj k ii j t
  unfold blocked_trace nest
  simp only [hii]
  rw [forLoop_append (fun i => (blocks n).flatMap fun j => (blocks n).flatMap fun k =>
      (els i n).flatMap fun ii => (els j n).flatMap fun jj => unit out n k ii jj)
      n 16 (by decide) (fun _ => rfl) (fun _ => rfl) _ n 0 _ (by omega), iters_block]
  · rfl
  · intro i t
    rw [forLoop_append (fun j => (blocks n).flatMap fun k =>
      (els i n).flatMap fun ii => (els j n).flatMap fun jj => unit out n k ii jj)
      n 16 (by decide) (fun _ => rfl) (fun _ => rfl) _ n 0 _ (by omega), iters_block]
    · rfl
    · intro j t
      rw [forLoop_append (fun k =>
        (els i n).flatMap fun ii => (els j n).flatMap fun jj => unit out n k ii jj)
        n 16 (by decide) (fun _ => rfl) (fun _ => rfl) (fun _ _ => rfl) n 0 _ (by omega),
        iters_block]
      rfl

theorem mem_blocks {n i : Nat} : i ∈ blocks n ↔ i % 16 = 0 ∧ i < n := by
  unfold blocks
  rw [List.mem_range']
  constructor
  · rintro ⟨k, hk, rfl⟩
    omega
  · rintro ⟨h1, h2⟩
    exact ⟨i / 16, by omega, by omega⟩

theorem mem_els {lo n x : Nat} : x ∈ els lo n ↔ lo ≤ x ∧ x < lo + 16 ∧ x < n := by
  unfold els
  rw [List.mem_range'_1]
  omega

theorem nodup_blocks (n : Nat) : (blocks n).Nodup := by
  unfold blocks
  exact List.nodup_range' 0 _ 16 (by decide)

theorem nodup_els (lo n : Nat) : (els lo n).Nodup := by
  unfold els
  exact List.nodup_range' lo _ 1 Nat.one_pos

theorem flatMap_els_aux (n : Nat) : ∀ (m lo : Nat),
    (List.range' lo m 16).flatMap (fun k => els k n)
      = List.range' lo (min (lo + 16 * m) n - lo) := by
  intro m
  induction m with
  | zero => intro lo; simp
  | succ m ih =>
    intro lo
    rw [List.range'_succ, List.flatMap_cons, ih (lo + 16)]
    unfold els
    by_cases h : lo + 16 ≤ n
    · have e1 : min (lo + 16) n - lo = 16 := by omega
      have e2 : min (lo + 16 * (m + 1)) n - lo
          = (min (lo + 16 + 16 * m) n - (lo + 16)) + 16 := by omega
      rw [e1, e2, ← List.range'_append_1]
    · have e1 : min (lo + 16 + 16 * m) n - (lo + 16) = 0 := by omega
      have e2 : min (lo + 16 * (m + 1)) n - lo = min (lo + 16) n - lo := by omega
      rw [e1, e2]
      simp

/-- The truncated blocks, taken in order, enumerate `0, 1, ..., n - 1`. -/
theorem flatMap_els (n : Nat) : (blocks n).flatMap (fun k => els k n) = List.range n := by
  unfold blocks
  rw [flatMap_els_aux, List.range_eq_range']
  congr 1
  omega

/-- Concatenating `if x = x0 then ys else []` over a duplicate-free list. -/
theorem flatMap_ite_eq {ι β : Type} [DecidableEq ι] (x0 : ι) (ys : List β) :
    ∀ (l : List ι), l.Nodup →
      l.flatMap (fun x => if x = x0 then ys else []) = if x0 ∈ l then ys else [] := by
  intro l
  induction l with
  | nil => intro _; simp
  | cons x l ih =>
    intro hnd
    rw [List.nodup_cons] at hnd
    rw [List.flatMap_cons, ih hnd.2]
    by_cases hx : x = x0
    · subst hx
      simp [hnd.1]
    · have : ¬ x0 = x := fun h => hx h.symm
      simp [hx, this]

theorem flatMap_nil_fun {ι β : Type} (l : List ι) : l.flatMap (fun _ => ([] : List β)) = [] := by
  induction l with
  | nil => rfl
  | cons x l ih => simp [List.flatMap_cons, ih]

/-- Selecting, inside one truncated block, the iteration with index `x0`. -/
theorem els_select {β : Type} (lo n x0 : Nat) (ys : List β) :
    (els lo n).flatMap (fun x => if x = x0 then ys else [])
      = if x0 ∈ els lo n then ys else [] :=
  flatMap_ite_eq x0 ys (els lo n) (nodup_els lo n)

/-- Selecting, among the blocks, the one that contains `x0`. -/
theorem blocks_select {β : Type} (n x0 : Nat) (ys : List β) :
    (blocks n).flatMap (fun b => if x0 ∈ els b n then ys else [])
      = if x0 < n then ys else [] := by
  by_cases h : x0 < n
  · have hcongr : (blocks n).flatMap (fun b => if x0 ∈ els b n then ys else [])
        = (blocks n).flatMap (fun b => if b = 16 * (x0 / 16) then ys else []) := by
      apply List.flatMap_congr
      intro b hb
      rw [mem_blocks] at hb
      have : x0 ∈ els b n ↔ b = 16 * (x0 / 16) := by
        rw [mem_els]; omega
      simp only [this]
    rw [hcongr, flatMap_ite_eq _ _ _ (nodup_blocks n)]
    have : 16 * (x0 / 16) ∈ blocks n := by rw [mem_blocks]; omega
    simp [this, h]
  · have hcongr : (blocks n).flatMap (fun b => if x0 ∈ els b n then ys else [])
        = (blocks n).flatMap (fun _ => ([] : List β)) := by
      apply List.flatMap_congr
      intro b _
      have : ¬ x0 ∈ els b n := by rw [mem_els]; omega
      simp [this]
    rw [hcongr, flatMap_nil_fun]
    simp [h]

theorem kOrder_flatMap {ι : Type} (l : List ι) (f : ι → List (Nat × Nat × Nat)) (i j : Nat) :
    kOrder (l.flatMap f) i j = l.flatMap (fun x => kOrder (f x) i j) := by
  unfold kOrder
  rw [List.filter_flatMap, List.map_flatMap]

theorem kOrder_map (l : List Nat) (ii jj i j : Nat) :
    kOrder (l.map (fun kk => (ii, jj, kk))) i j
      = if ii = i then (if jj = j then l else []) else [] := by
  unfold kOrder
  by_cases h1 : ii = i <;> by_cases h2 : jj = j <;>
    simp [List.filter_map, Function.comp_def, h1, h2]

/-- For each output position the blocked loop nest accumulates `k = 0, 1, ..., n - 1`
in this order, and nothing for a position outside the matrix. -/
theorem kOrder_nestMacs (n i j : Nat) :
    kOrder (nestMacs n) i j = if i < n then (if j < n then List.range n else []) else [] := by
  unfold nestMacs
  simp only [kOrder_flatMap, kOrder_map]
  have h1 : ∀ (k ii b : Nat),
      (els b n).flatMap (fun jj => if ii = i then (if jj = j then els k n else []) else [])
        = if ii = i then (if j ∈ els b n then els k n else []) else [] := by
    intro k ii b
    by_cases h : ii = i
    · simp only [h, if_true]; exact els_select b n j _
    · simp only [h, if_false]; exact flatMap_nil_fun _
  simp only [h1, els_select]
  have h2 : ∀ (bi bj : Nat),
      (blocks n).flatMap (fun k => if i ∈ els bi n then (if j ∈ els bj n then els k n else []) else [])
        = if i ∈ els bi n then (if j ∈ els bj n then List.range n else []) else [] := by
    intro bi bj
    by_cases h : i ∈ els bi n <;> by_cases h' : j ∈ els bj n
    · simp only [h, h', if_true]; exact flatMap_els n
    · simp only [h, h', if_true, if_false]; exact flatMap_nil_fun _
    · simp only [h, if_false]; exact flatMap_nil_fun _
    · simp only [h, if_false]; exact flatMap_nil_fun _
  simp only [h2]
  have h3 : ∀ (bi : Nat),
      (blocks n).flatMap (fun bj => if i ∈ els bi n then (if j ∈ els bj n then List.range n else []) else [])
        = if i ∈ els bi n then (if j < n then List.range n else []) else [] := by
    intro bi
    by_cases h : i ∈ els bi n
    · simp only [h, if_true]; exact blocks_select n j _
    · simp only [h, if_false]; exact flatMap_nil_fun _
  simp only [h3]
  exact blocks_select n i _

theorem iters_one (n : Nat) : iters 0 n 1 = n := by simp [iters]

/-- The statements of one `(i, j)` iteration of `traditional_matmul`. -/
theorem traditional_matmul_trace_eq (n : Nat) :
    traditional_matmul_trace n
      = (List.range n).flatMap fun i => (List.range n).flatMap fun j => tunit n i j := by
  have hk : ∀ i j (t : List TEv),
      forLoop (fun k => decide (k < n)) (· + 1) (fun k t => t ++ [TEv.acc i j k]) n 0 t
        = t ++ (List.range n).flatMap (fun k => [TEv.acc i j k]) := by
    intro i j t
    rw [forLoop_append (fun k => [TEv.acc i j k]) n 1 Nat.one_pos (fun _ => rfl)
      (fun _ => rfl) (fun _ _ => rfl) n 0 t (by omega), iters_one, List.range_eq_range']
  unfold traditional_matmul_trace
  rw [forLoop_append (fun i => (List.range n).flatMap fun j => tunit n i j) n 1 Nat.one_pos
    (fun _ => rfl) (fun _ => rfl) _ n 0 _ (by omega), iters_one, List.range_eq_range']
  · rfl
  · intro i t
    rw [forLoop_append (fun j => tunit n i j) n 1 Nat.one_pos
      (fun _ => rfl) (fun _ => rfl) _ n 0 _ (by omega), iters_one, List.range_eq_range']
    intro j t
    simp only [hk, tunit, List.append_assoc]

theorem filterMap_flatMap {ι β γ : Type} (f : β → Option γ) (g : ι → List β) (l : List ι) :
    (l.flatMap g).filterMap f = l.flatMap (fun x => (g x).filterMap f) := by
  induction l with
  | nil => rfl
  | cons x l ih => simp [List.flatMap_cons, List.filterMap_append, ih]

theorem flatMap_singleton_fun {ι β : Type} (f : ι → β) (l : List ι) :
    l.flatMap (fun x => [f x]) = l.map f := by
  induction l with
  | nil => rfl
  | cons x l ih => simp [List.flatMap_cons, ih]

theorem filterMap_triple_unit (out : Buf) (n k ii jj : Nat) :
    (unit out n k ii jj).filterMap Ev.triple = (els k n).map fun kk => (ii, jj, kk) := by
  unfold unit
  simp only [List.filterMap_append, filterMap_flatMap]
  simp [Ev.triple, List.filterMap_cons, flatMap_singleton_fun]

theorem blocked_macs (out : Buf) (n : Nat) :
    (blocked_trace out n).filterMap Ev.triple = nestMacs n := by
  rw [blocked_trace_eq]
  simp only [List.filterMap_append, nest, filterMap_flatMap, filterMap_triple_unit]
  simp [Ev.triple, nestMacs]

theorem sme2_matmul_macs_eq (n : Nat) : sme2_matmul_macs n = nestMacs n :=
  blocked_macs Buf.c n

theorem traditional_matmul_macs_eq (n : Nat) : traditional_matmul_macs n = lexTriples n := by
  unfold traditional_matmul_macs lexTriples
  rw [traditional_matmul_trace_eq]
  simp only [filterMap_flatMap, tunit, List.filterMap_append]
  simp [TEv.triple, List.filterMap_cons, flatMap_singleton_fun]

theorem range_select {β : Type} (n x0 : Nat) (ys : List β) :
    (List.range n).flatMap (fun x => if x = x0 then ys else [])
      = if x0 < n then ys else [] := by
  rw [flatMap_ite_eq x0 ys _ (List.nodup_range n)]
  simp

theorem kOrder_lexTriples (n i j : Nat) :
    kOrder (lexTriples n) i j = if i < n then (if j < n then List.range n else []) else [] := by
  unfold lexTriples
  simp only [kOrder_flatMap, kOrder_map]
  have h1 : ∀ (ii : Nat),
      (List.range n).flatMap (fun jj => if ii = i then (if jj = j then List.range n else []) else [])
        = if ii = i then (if j < n then List.range n else []) else [] := by
    intro ii
    by_cases h : ii = i
    · simp only [h, if_true]; exact range_select n j _
    · simp only [h, if_false]; exact flatMap_nil_fun _
  simp only [h1]
  exact range_select n i _

theorem count_eq_count_kOrder (inst : BEq (Nat × Nat × Nat)) [@LawfulBEq _ inst]
    (l : List (Nat × Nat × Nat)) (t : Nat × Nat × Nat) :
    @List.count _ inst t l = (kOrder l t.1 t.2.1).count t.2.2 := by
  obtain ⟨i, j, k⟩ := t
  unfold kOrder
  induction l with
  | nil => simp
  | cons x l ih =>
    obtain ⟨a, b, c⟩ := x
    by_cases h1 : a = i <;> by_cases h2 : b = j <;> by_cases h3 : c = k <;>
      simp_all [List.count_cons, List.filter_cons]

theorem count_range (n k : Nat) : (List.range n).count k = if k < n then 1 else 0 := by
  by_cases h : k < n
  · simp only [h, if_true]
    exact List.count_eq_one_of_mem (List.nodup_range n) (List.mem_range.mpr h)
  · simp only [h, if_false]
    exact List.count_eq_zero_of_not_mem (by simpa using h)

theorem count_nestMacs (inst : BEq (Nat × Nat × Nat)) [@LawfulBEq _ inst]
    (n : Nat) (t : Nat × Nat × Nat) :
    @List.count _ inst t (nestMacs n) = if t.1 < n ∧ t.2.1 < n ∧ t.2.2 < n then 1 else 0 := by
  rw [count_eq_count_kOrder, kOrder_nestMacs]
  by_cases h1 : t.1 < n <;> by_cases h2 : t.2.1 < n <;> simp [h1, h2, count_range]

theorem count_lexTriples (inst : BEq (Nat × Nat × Nat)) [@LawfulBEq _ inst]
    (n : Nat) (t : Nat × Nat × Nat) :
    @List.count _ inst t (lexTriples n) = if t.1 < n ∧ t.2.1 < n ∧ t.2.2 < n then 1 else 0 := by
  rw [count_eq_count_kOrder, kOrder_lexTriples]
  by_cases h1 : t.1 < n <;> by_cases h2 : t.2.1 < n <;> simp [h1, h2, count_range]

/-- The blocked loop nest executes the same multiply-accumulates as the three plain
loops, each once, in another order. -/
theorem nestMacs_perm (n : Nat) : (nestMacs n).Perm (lexTriples n) := by
  have key : ∀ (inst : DecidableEq (Nat × Nat × Nat)) (t : Nat × Nat × Nat),
      @List.count _ (@instBEqOfDecidableEq _ inst) t (nestMacs n)
        = @List.count _ (@instBEqOfDecidableEq _ inst) t (lexTriples n) := fun inst t =>
    (@count_nestMacs (@instBEqOfDecidableEq _ inst) (@instLawfulBEq _ inst) n t).trans
      (@count_lexTriples (@instBEqOfDecidableEq _ inst) (@instLawfulBEq _ inst) n t).symm
  exact List.perm_iff_count.mpr (key _)

theorem foldl_kstep_macs {α : Type} [Mul α] [Add α] (out : Buf) (rdA rdB : Nat → Nat → α) (ii jj : Nat) :
    ∀ (ks : List Nat) (s : KState α),
      (ks.flatMap (fun kk => [Ev.mac ii jj kk])).foldl (kstep out rdA rdB) s
        = ⟨s.c, fun l => (ks.map fun kk => (ii, jj, kk)).foldl (macLane rdA rdB) (s.acc l)⟩ := by
  intro ks
  induction ks with
  | nil => intro s; rfl
  | cons k ks ih =>
    intro s
    rw [List.flatMap_cons, List.foldl_append, ih]
    simp [kstep, svmad_f32, svdup_f32, macLane]

/-- Effect of one `(ii, jj)` iteration on a single cell of the output buffer: the cell
receives the multiply-accumulates of the iteration when the tile covers it, and is left
alone otherwise. -/
theorem foldl_kstep_unit {α : Type} [Mul α] [Add α] (out : Buf) (rdA rdB : Nat → Nat → α) (n k ii jj p : Nat)
    (s : KState α) :
    ((unit out n k ii jj).foldl (kstep out rdA rdB) s).c p
      = (((els k n).map fun kk => (ii, jj, kk)).filter (hit n p)).foldl
          (macLane rdA rdB) (s.c p) := by
  unfold unit
  rw [List.foldl_append, List.foldl_append, foldl_kstep_macs]
  by_cases h : ii * n + jj ≤ p ∧ p - (ii * n + jj) < W
  · have hf : ((els k n).map fun kk => (ii, jj, kk)).filter (hit n p)
        = (els k n).map fun kk => (ii, jj, kk) := by
      apply List.filter_eq_self.mpr
      intro t ht
      obtain ⟨kk, _, rfl⟩ := List.mem_map.mp ht
      simpa [hit] using h
    rw [hf]
    have hp : ii * n + jj + (p - (ii * n + jj)) = p := by omega
    simp [kstep, svst1_f32, svld1_f32, h, hp]
  · have hf : ((els k n).map fun kk => (ii, jj, kk)).filter (hit n p) = [] := by
      apply List.filter_eq_nil_iff.mpr
      intro t ht
      obtain ⟨kk, _, rfl⟩ := List.mem_map.mp ht
      simpa [hit] using h
    rw [hf]
    simp [kstep, svst1_f32, h]

theorem foldl_kstep_flatMap {α : Type} [Mul α] [Add α] {ι : Type} (out : Buf) (rdA rdB : Nat → Nat → α) (n p : Nat)
    (F : ι → List Ev) (M : ι → List (Nat × Nat × Nat))
    (h : ∀ (x : ι) (s : KState α), ((F x).foldl (kstep out rdA rdB) s).c p
      = ((M x).filter (hit n p)).foldl (macLane rdA rdB) (s.c p)) :
    ∀ (l : List ι) (s : KState α), ((l.flatMap F).foldl (kstep out rdA rdB) s).c p
      = ((l.flatMap M).filter (hit n p)).foldl (macLane rdA rdB) (s.c p) := by
  intro l
  induction l with
  | nil => intro s; rfl
  | cons x l ih =>
    intro s
    rw [List.flatMap_cons, List.foldl_append, ih, h, List.flatMap_cons, List.filter_append,
      List.foldl_append]

/-- Each cell of the output of the blocked kernel is obtained from its previous content
by the multiply-accumulates of all iterations `(ii, jj)` whose tile covers the cell,
applied in execution order. -/
theorem blocked_cell {α : Type} [Mul α] [Add α] (out : Buf) (rdA rdB : Nat → Nat → α) (n p : Nat) (s : KState α) :
    ((blocked_trace out n).foldl (kstep out rdA rdB) s).c p
      = ((nestMacs n).filter (hit n p)).foldl (macLane rdA rdB) (s.c p) := by
  rw [blocked_trace_eq, List.foldl_append, List.foldl_append]
  have h0 : ([Ev.smstart].foldl (kstep out rdA rdB) s) = s := rfl
  rw [h0]
  have h1 : ∀ s' : KState α, ([Ev.smstop].foldl (kstep out rdA rdB) s') = s' := fun _ => rfl
  rw [h1]
  unfold nest nestMacs
  apply foldl_kstep_flatMap; intro i s
  apply foldl_kstep_flatMap; intro j s
  apply foldl_kstep_flatMap; intro k s
  apply foldl_kstep_flatMap; intro ii s
  apply foldl_kstep_flatMap; intro jj s
  exact foldl_kstep_unit out rdA rdB n k ii jj p s

/-- Value of one cell after `sme2_matmul`, for any arithmetic. -/
theorem sme2_matmul_cell {α : Type} [Mul α] [Add α] [Zero α] (a b c : Nat → α) (n p : Nat) :
    sme2_matmul a b c n p
      = ((sme2_matmul_macs n).filter (hit n p)).foldl
          (macLane (fun ii kk => a (ii * n + kk)) (fun kk jj => b (kk * n + jj))) (c p) := by
  unfold sme2_matmul blocked_run
  rw [sme2_matmul_trace_blocked, blocked_cell, sme2_matmul_macs_eq]

/-- The product contributed by one multiply-accumulate. -/
theorem foldl_macLane {α : Type} [Semiring α] (rdA rdB : Nat → Nat → α) (l : List (Nat × Nat × Nat)) (v : α) :
    l.foldl (macLane rdA rdB) v = v + (l.map (macTerm rdA rdB)).sum := by
  induction l generalizing v with
  | nil => simp
  | cons t l ih =>
    rw [List.foldl_cons, ih, List.map_cons, List.sum_cons]
    simp only [macLane, macTerm]
    rw [add_comm (rdA t.1 t.2.2 * rdB t.2.2 t.2.1) v, add_assoc]

theorem sum_flatMap_list {α : Type} [Semiring α] {ι : Type} (l : List ι) (f : ι → List α) :
    (l.flatMap f).sum = (l.map fun x => (f x).sum).sum := by
  induction l with
  | nil => rfl
  | cons x l ih => simp [List.flatMap_cons, List.sum_append, ih]

theorem sum_filter_lexTriples {α : Type} [Semiring α] (rdA rdB : Nat → Nat → α) (n p : Nat) :
    (((lexTriples n).filter (hit n p)).map (macTerm rdA rdB)).sum
      = ((List.range n).map fun i => ((List.range n).map fun j =>
          if hit n p (i, j, 0) then ((List.range n).map fun k => rdA i k * rdB k j).sum
          else 0).sum).sum := by
  unfold lexTriples
  simp only [List.filter_flatMap, List.map_flatMap, sum_flatMap_list]
  congr 1
  apply List.map_congr_left
  intro i _
  congr 1
  apply List.map_congr_left
  intro j _
  by_cases h : hit n p (i, j, 0)
  · have hf : ((List.range n).map fun k => (i, j, k)).filter (hit n p)
        = (List.range n).map fun k => (i, j, k) := by
      apply List.filter_eq_self.mpr
      intro t ht
      obtain ⟨kk, _, rfl⟩ := List.mem_map.mp ht
      simpa [hit] using h
    simp [h, hf, macTerm, Function.comp_def]
  · have hf : ((List.range n).map fun k => (i, j, k)).filter (hit n p) = [] := by
      apply List.filter_eq_nil_iff.mpr
      intro t ht
      obtain ⟨kk, _, rfl⟩ := List.mem_map.mp ht
      simpa [hit] using h
    simp [h, hf]

/-- In exact arithmetic a cell of the output of the blocked kernel is its previous
content plus the inner products of all positions `(i, j)` whose tile covers the cell. -/
theorem blocked_cell_sum {α : Type} [Semiring α] (out : Buf) (rdA rdB : Nat → Nat → α) (n p : Nat) (s : KState α) :
    ((blocked_trace out n).foldl (kstep out rdA rdB) s).c p
      = s.c p + ((List.range n).map fun i => ((List.range n).map fun j =>
          if hit n p (i, j, 0) then ((List.range n).map fun k => rdA i k * rdB k j).sum
          else 0).sum).sum := by
  rw [blocked_cell, foldl_macLane, ← sum_filter_lexTriples]
  congr 1
  exact (((nestMacs_perm n).filter _).map _).sum_eq

/-- In exact arithmetic `sme2_matmul` adds to the previous content of every cell what a
call on a zero buffer produces there. -/
theorem sme2_matmul_add {α : Type} [Semiring α] (a b c : Nat → α) (n p : Nat) :
    sme2_matmul a b c n p = c p + sme2_matmul a b (fun _ => 0) n p := by
  rw [sme2_matmul_cell, sme2_matmul_cell, foldl_macLane, foldl_macLane, zero_add]

theorem sme2_iterations_add {α : Type} [Semiring α] (a b c : Nat → α) (n p : Nat) :
    sme2_iterations a b c n p = c p + 10 * sme2_matmul a b (fun _ => 0) n p := by
  obtain ⟨S, hS⟩ : ∃ S : Nat → α, ∀ c : Nat → α, sme2_matmul a b c n = fun p => c p + S p :=
    ⟨sme2_matmul a b (fun _ => 0) n, fun c => funext (sme2_matmul_add a b c n)⟩
  have h0 : sme2_matmul a b (fun _ => 0) n p = S p := by rw [hS]; simp
  rw [h0]
  simp only [sme2_iterations, forLoop, ITERATIONS, hS]
  simp only [Nat.reduceAdd, Nat.reduceLT, decide_True, if_true]
  simp only [add_assoc]
  congr 1
  have : (10 : α) = 1 + 1 + 1 + 1 + 1 + 1 + 1 + 1 + 1 + 1 := by norm_num
  rw [this]
  simp only [add_mul, one_mul, add_assoc]

theorem foldl_tstep_accs {α : Type} [Mul α] [Add α] [Zero α] (a b : Nat → α) (n i j : Nat) :
    ∀ (ks : List Nat) (s : TState α),
      (ks.flatMap (fun k => [TEv.acc i j k])).foldl (tstep a b n) s
        = ⟨s.c, ks.foldl (fun v k => v + a (i * n + k) * b (k * n + j)) s.sum⟩ := by
  intro ks
  induction ks with
  | nil => intro s; rfl
  | cons k ks ih =>
    intro s
    rw [List.flatMap_cons, List.foldl_append, ih]
    simp [tstep]

theorem foldl_tstep_tunit {α : Type} [Mul α] [Add α] [Zero α] (a b : Nat → α) (n i j : Nat) (s : TState α) :
    ((tunit n i j).foldl (tstep a b n) s).c = Function.update s.c (i * n + j) (dot a b n i j) := by
  unfold tunit
  rw [List.foldl_append, List.foldl_append, foldl_tstep_accs]
  simp [tstep, dot]

theorem foldl_tstep_flatMap {α : Type} [Mul α] [Add α] [Zero α] {ι : Type} (a b : Nat → α) (n p : Nat) (g : α)
    (F : ι → List TEv) (C : ι → Bool) (l : List ι)
    (h : ∀ x ∈ l, ∀ (s : TState α), ((F x).foldl (tstep a b n) s).c p
      = if C x then g else s.c p) :
    ∀ (s : TState α), ((l.flatMap F).foldl (tstep a b n) s).c p
      = if l.any C then g else s.c p := by
  induction l with
  | nil => intro s; simp
  | cons x l ih =>
    intro s
    rw [List.flatMap_cons, List.foldl_append,
      ih (fun y hy => h y (List.mem_cons_of_mem _ hy)), h x (List.mem_cons_self _ _)]
    by_cases h1 : l.any C <;> by_cases h2 : C x <;> simp [h1, h2]

/-- Every cell of the matrix holds, after `traditional_matmul`, the inner product of
its row and column, whatever the buffer held before. -/
theorem traditional_matmul_cell {α : Type} [Mul α] [Add α] [Zero α] (a b c : Nat → α) (n p : Nat) (hp : p < n * n) :
    traditional_matmul a b c n p = dot a b n (p / n) (p % n) := by
  have hn : 0 < n := by
    rcases Nat.eq_zero_or_pos n with h | h
    · subst h; simp at hp
    · exact h
  unfold traditional_matmul traditional_run
  rw [traditional_matmul_trace_eq]
  rw [foldl_tstep_flatMap a b n p (dot a b n (p / n) (p % n)) _
    (fun i => (List.range n).any fun j => decide (i * n + j = p))]
  · have : ((List.range n).any fun i => (List.range n).any fun j => decide (i * n + j = p))
        = true := by
      rw [List.any_eq_true]
      refine ⟨p / n, List.mem_range.mpr ((Nat.div_lt_iff_lt_mul hn).mpr hp), ?_⟩
      rw [List.any_eq_true]
      refine ⟨p % n, List.mem_range.mpr (Nat.mod_lt _ hn), ?_⟩
      simp [Nat.div_add_mod']
    simp [this]
  · intro i _ s
    apply foldl_tstep_flatMap
    intro j hj s
    have hj' : j < n := List.mem_range.mp hj
    rw [foldl_tstep_tunit]
    by_cases h : i * n + j = p
    · subst h
      have e1 : (i * n + j) / n = i := by
        rw [Nat.add_comm, Nat.add_mul_div_right _ _ hn, Nat.div_eq_of_lt hj', Nat.zero_add]
      have e2 : (i * n + j) % n = j := by
        rw [Nat.add_comm, Nat.add_mul_mod_self_right, Nat.mod_eq_of_lt hj']
      simp [e1, e2]
    · have h' : ¬ p = i * n + j := fun e => h e.symm
      simp [h, Function.update, h']

theorem traditional_iterations_cell {α : Type} [Mul α] [Add α] [Zero α] (a b c : Nat → α) (n p : Nat) (hp : p < n * n) :
    traditional_iterations a b c n p = dot a b n (p / n) (p % n) := by
  simp only [traditional_iterations, forLoop, ITERATIONS]
  simp only [Nat.reduceAdd, Nat.reduceLT, decide_True, if_true]
  exact traditional_matmul_cell a b _ n p hp

/-- Invariant rule for a loop that counts up by one. -/
theorem forLoop_count_inv {σ : Type} {cond : Nat → Bool} {next : Nat → Nat}
    {body : Nat → σ → σ} (P : Nat → σ → Prop) (hi : Nat)
    (hc : ∀ x, cond x = decide (x < hi)) (hn : ∀ x, next x = x + 1)
    (hstep : ∀ x s, x < hi → P x s → P (x + 1) (body x s)) :
    ∀ (fuel lo : Nat) (s : σ), hi ≤ lo + fuel → lo ≤ hi → P lo s →
      P hi (forLoop cond next body fuel lo s) := by
  intro fuel
  induction fuel with
  | zero =>
    intro lo s h1 h2 hP
    have : lo = hi := by omega
    subst this
    simpa [forLoop] using hP
  | succ fuel ih =>
    intro lo s h1 h2 hP
    by_cases hlt : lo < hi
    · simp only [forLoop, hc, hlt, decide_True, if_true, hn]
      exact ih (lo + 1) (body lo s) (by omega) (by omega) (hstep lo s hlt hP)
    · have : lo = hi := by omega
      subst this
      simpa [forLoop, hc] using hP

theorem testcase_large_matrix_init_inv {α : Type} [NatCast α] [Zero α] :
    largeInv (128 * 128) (testcase_large_matrix_init : LargeMatrices α) := by
  unfold testcase_large_matrix_init
  have houter := @forLoop_count_inv (LargeMatrices α)
    (fun i => decide (i < 128)) (· + 1)
    (fun i s =>
      forLoop (fun j => decide (j < 128)) (· + 1) (fun j s =>
        { matrix_a := Function.update s.matrix_a (i * 128 + j) ((i * 128 + j : Nat) : α)
          matrix_b := Function.update s.matrix_b (i * 128 + j) ((j * 128 + i : Nat) : α)
          result := Function.update s.result (i * 128 + j) 0 }) 128 0 s)
    (fun i s => largeInv (128 * i) s) 128 (fun _ => rfl) (fun _ => rfl)
  refine houter ?_ 128 0 _ (by omega) (by omega) ?_
  · intro i s hi hP
    have hinner := @forLoop_count_inv (LargeMatrices α)
      (fun j => decide (j < 128)) (· + 1)
      (fun j s =>
        { matrix_a := Function.update s.matrix_a (i * 128 + j) ((i * 128 + j : Nat) : α)
          matrix_b := Function.update s.matrix_b (i * 128 + j) ((j * 128 + i : Nat) : α)
          result := Function.update s.result (i * 128 + j) 0 })
      (fun j s => largeInv (128 * i + j) s) 128 (fun _ => rfl) (fun _ => rfl)
    have := hinner ?_ 128 0 s (by omega) (by omega) (by simpa using hP)
    · have e : 128 * (i + 1) = 128 * i + 128 := by ring
      rw [e]; exact this
    · intro j s hj hP p
      obtain ⟨h1, h2, h3⟩ := hP p
      by_cases hp : p = i * 128 + j
      · subst hp
        have e1 : (i * 128 + j) % 128 = j := by omega
        have e2 : (i * 128 + j) / 128 = i := by omega
        have e3 : i * 128 + j < 128 * i + (j + 1) := by omega
        simp [Function.update, e1, e2, e3]
      · have e3 : p < 128 * i + (j + 1) ↔ p < 128 * i + j := by omega
        simp [Function.update, hp, h1, h2, h3, e3]
  · intro p
    simp

/-! ## Loop structure of the two kernels (C10) -/

/-- C10. For every `n` the six nested loops of `sme2_matmul` execute the innermost
multiply-accumulate exactly once for each triple `(ii, jj, kk)` with all three indices
below `n` and never for another triple; for each output position `(ii, jj)` inside the
matrix the `kk` values are accumulated in the order `0, 1, ..., n - 1`; and this is, for
every position, the order in which `traditional_matmul` accumulates `k`. -/
theorem sme2_matmul_loop_structure (n : Nat) :
    (∀ t : Nat × Nat × Nat,
      (sme2_matmul_macs n).count t = if t.1 < n ∧ t.2.1 < n ∧ t.2.2 < n then 1 else 0)
    ∧ (∀ ii jj : Nat,
      kOrder (sme2_matmul_macs n) ii jj = if ii < n ∧ jj < n then List.range n else [])
    ∧ (∀ i j : Nat,
      kOrder (traditional_matmul_macs n) i j = kOrder (sme2_matmul_macs n) i j) := by
  refine ⟨?_, ?_, ?_⟩
  · intro t
    rw [sme2_matmul_macs_eq]
    exact count_nestMacs _ n t
  · intro ii jj
    rw [sme2_matmul_macs_eq, kOrder_nestMacs]
    by_cases h1 : ii < n <;> by_cases h2 : jj < n <;> simp [h1, h2]
  · intro i j
    rw [sme2_matmul_macs_eq, traditional_matmul_macs_eq, kOrder_nestMacs, kOrder_lexTriples]

/-! ## Values computed by the blocked kernel (C1, C3, C4) -/

theorem blocked_run_cell_sum {α : Type} [Semiring α] (out : Buf) (rdA rdB : Nat → Nat → α)
    (n p : Nat) (c : Nat → α) :
    blocked_run out rdA rdB (blocked_trace out n) c p
      = c p + ((List.range n).map fun i => ((List.range n).map fun j =>
          if hit n p (i, j, 0) then ((List.range n).map fun k => rdA i k * rdB k j).sum
          else 0).sum).sum := by
  unfold blocked_run
  rw [blocked_cell_sum]

/-- In exact arithmetic a cell of the output of `sme2_matmul` is its previous content
plus the inner products of all positions `(i, j)` whose tile covers the cell. -/
theorem sme2_matmul_cell_sum {α : Type} [Semiring α] (a b c : Nat → α) (n p : Nat) :
    sme2_matmul a b c n p
      = c p + ((List.range n).map fun i => ((List.range n).map fun j =>
          if hit n p (i, j, 0) then
            ((List.range n).map fun k => a (i * n + k) * b (k * n + j)).sum
          else 0).sum).sum := by
  unfold sme2_matmul
  rw [sme2_matmul_trace_blocked, blocked_run_cell_sum]

theorem testcase_large_blocked_loop_sum (m : LargeMatrices Int) (hinv : largeInv (128 * 128) m)
    (p : Nat) :
    testcase_large_matrix_blocked_loop m p
      = ((List.range 128).map fun i => ((List.range 128).map fun j =>
          if hit 128 p (i, j, 0) then largeExpected i j else 0).sum).sum := by
  unfold testcase_large_matrix_blocked_loop
  rw [testcase_large_trace_blocked, blocked_run_cell_sum, (hinv p).2.2, zero_add]
  refine congrArg List.sum (List.map_congr_left ?_)
  intro i hi
  refine congrArg List.sum (List.map_congr_left ?_)
  intro j hj
  have hi' : i < 128 := List.mem_range.mp hi
  have hj' : j < 128 := List.mem_range.mp hj
  by_cases h : hit 128 p (i, j, 0)
  · simp only [h, if_true, largeExpected]
    refine congrArg List.sum (List.map_congr_left ?_)
    intro k hk
    have hk' : k < 128 := List.mem_range.mp hk
    rw [(hinv (i * 128 + k)).1, (hinv (k * 128 + j)).2.1]
    have e1 : i * 128 + k < 128 * 128 := by omega
    have e2 : k * 128 + j < 128 * 128 := by omega
    have e3 : (k * 128 + j) % 128 * 128 + (k * 128 + j) / 128 = j * 128 + k := by omega
    simp only [e1, e2, e3, if_true]
  · simp [h]

/-- In exact arithmetic a cell of `result` at the end of
`testcase_large_matrix_block_processing` is the sum of the triple-sum values of all
positions `(i, j)` whose tile covers the cell. -/
theorem testcase_large_cell_sum (p : Nat) :
    (testcase_large_matrix_block_processing : Nat → Int) p
      = ((List.range 128).map fun i => ((List.range 128).map fun j =>
          if hit 128 p (i, j, 0) then largeExpected i j else 0).sum).sum :=
  testcase_large_blocked_loop_sum _ testcase_large_matrix_init_inv p

/-- C4 (code at the inputs of the test). In exact arithmetic the cell `result[0][0]` at
the end of `testcase_large_matrix_block_processing` is the triple-sum value `690880`,
while `result[50][50]` and `result[127][127]` are not the triple-sum values of their
positions: each holds the sum of the triple-sum values of the sixteen positions
`(i, j - 15), ..., (i, j)`, because every tile store at `&result[i][j']` writes the
sixteen elements that start there. -/
theorem testcase_large_samples :
    (testcase_large_matrix_block_processing : Nat → Int) (0 * 128 + 0) = 690880
    ∧ largeExpected 0 0 = 690880
    ∧ (testcase_large_matrix_block_processing : Nat → Int) (50 * 128 + 50) = 72853990400
    ∧ largeExpected 50 50 = 5347609280
    ∧ (testcase_large_matrix_block_processing : Nat → Int) (127 * 128 + 127) = 513353165824
    ∧ largeExpected 127 127 = 34089913024 := by
  refine ⟨?_, ?_, ?_, ?_, ?_, ?_⟩
  · rw [testcase_large_cell_sum]; decide!
  · decide!
  · rw [testcase_large_cell_sum]; decide!
  · decide!
  · rw [testcase_large_cell_sum]; decide!
  · decide!

/-- C1 (code at a failing input). With all entries of `a` and `b` equal to one and a
zero output, `sme2_matmul` leaves `4` in cell `c[1]` for `n = 2` where
`traditional_matmul` leaves `2`, and `128` for `n = 64` where `traditional_matmul`
leaves `64`; neither pair agrees within the relative tolerance `1e-3`. -/
theorem sme2_matmul_disagrees :
    sme2_matmul (fun _ => (1 : Int)) (fun _ => 1) (fun _ => 0) 2 1 = 4
    ∧ traditional_matmul (fun _ => (1 : Int)) (fun _ => 1) (fun _ => 0) 2 1 = 2
    ∧ ¬ withinRelTol (sme2_matmul (fun _ => (1 : Int)) (fun _ => 1) (fun _ => 0) 2 1)
        (traditional_matmul (fun _ => (1 : Int)) (fun _ => 1) (fun _ => 0) 2 1)
    ∧ sme2_matmul (fun _ => (1 : Int)) (fun _ => 1) (fun _ => 0) 64 1 = 128
    ∧ traditional_matmul (fun _ => (1 : Int)) (fun _ => 1) (fun _ => 0) 64 1 = 64
    ∧ ¬ withinRelTol (sme2_matmul (fun _ => (1 : Int)) (fun _ => 1) (fun _ => 0) 64 1)
        (traditional_matmul (fun _ => (1 : Int)) (fun _ => 1) (fun _ => 0) 64 1) := by
  have h1 : sme2_matmul (fun _ => (1 : Int)) (fun _ => 1) (fun _ => 0) 2 1 = 4 := by decide
  have h2 : traditional_matmul (fun _ => (1 : Int)) (fun _ => 1) (fun _ => 0) 2 1 = 2 := by
    decide
  have h3 : sme2_matmul (fun _ => (1 : Int)) (fun _ => 1) (fun _ => 0) 64 1 = 128 := by
    rw [sme2_matmul_cell_sum]; decide!
  have h4 : traditional_matmul (fun _ => (1 : Int)) (fun _ => 1) (fun _ => 0) 64 1 = 64 := by
    rw [traditional_matmul_cell _ _ _ 64 1 (by decide)]; decide!
  refine ⟨h1, h2, ?_, h3, h4, ?_⟩
  · rw [h1, h2]; unfold withinRelTol; norm_num
  · rw [h3, h4]; unfold withinRelTol; norm_num

/-- C3 (counterexample). For `n = 1` and `a = b = [1]`, a single call of `sme2_matmul`
on the zeroed output leaves `1` in `c[0]`, the ten consecutive calls of the timing loop
leave `10`, and a call on an output that holds `5` leaves `6`: the output of
`sme2_matmul` depends on the previous contents. -/
theorem sme2_iterations_not_single_call :
    sme2_matmul (fun _ => (1 : Int)) (fun _ => 1) (fun _ => 0) 1 0 = 1
    ∧ sme2_iterations (fun _ => (1 : Int)) (fun _ => 1) (fun _ => 0) 1 0 = 10
    ∧ sme2_matmul (fun _ => (1 : Int)) (fun _ => 1) (fun _ => 5) 1 0 = 6
    ∧ sme2_iterations (fun _ => (1 : Int)) (fun _ => 1) (fun _ => 0) 1 0
        ≠ sme2_matmul (fun _ => (1 : Int)) (fun _ => 1) (fun _ => 0) 1 0 := by
  decide

/-- C3 (amended). After `traditional_matmul` a cell of the matrix does not depend on the
previous contents of the output, so the ten calls of the timing loop leave what one
call leaves; `sme2_matmul` accumulates into the output: in exact arithmetic a cell
holds, after a call, its previous content plus what a call on a zeroed output leaves
there, and after the ten calls of the timing loop on a zeroed output ten times that. -/
theorem output_after_iterations {α : Type} [Semiring α] (a b c c' : Nat → α) (n p : Nat)
    (hp : p < n * n) :
    traditional_matmul a b c n p = traditional_matmul a b c' n p
    ∧ traditional_iterations a b c n p = traditional_matmul a b (fun _ => 0) n p
    ∧ sme2_matmul a b c n p = c p + sme2_matmul a b (fun _ => 0) n p
    ∧ sme2_iterations a b (fun _ => 0) n p = 10 * sme2_matmul a b (fun _ => 0) n p := by
  refine ⟨?_, ?_, sme2_matmul_add a b c n p, ?_⟩
  · rw [traditional_matmul_cell a b c n p hp, traditional_matmul_cell a b c' n p hp]
  · rw [traditional_iterations_cell a b c n p hp, traditional_matmul_cell a b _ n p hp]
  · rw [sme2_iterations_add, zero_add]

/-- The behaviour of the two timing loops at a concrete input: `n = 1`, `a = b = [1]`,
cell `0`, an output that held `5`. -/
theorem output_after_iterations_witness :
    (0 : Nat) < 1 * 1
    ∧ (traditional_matmul (fun _ => (1 : Int)) (fun _ => 1) (fun _ => 5) 1 0
        = traditional_matmul (fun _ => (1 : Int)) (fun _ => 1) (fun _ => 0) 1 0
      ∧ traditional_iterations (fun _ => (1 : Int)) (fun _ => 1) (fun _ => 5) 1 0
        = traditional_matmul (fun _ => (1 : Int)) (fun _ => 1) (fun _ => 0) 1 0
      ∧ sme2_matmul (fun _ => (1 : Int)) (fun _ => 1) (fun _ => 5) 1 0
        = (fun _ => (5 : Int)) 0 + sme2_matmul (fun _ => (1 : Int)) (fun _ => 1) (fun _ => 0) 1 0
      ∧ sme2_iterations (fun _ => (1 : Int)) (fun _ => 1) (fun _ => 0) 1 0
        = 10 * sme2_matmul (fun _ => (1 : Int)) (fun _ => 1) (fun _ => 0) 1 0) :=
  ⟨by decide, output_after_iterations (fun _ => (1 : Int)) (fun _ => 1) (fun _ => 5)
    (fun _ => 0) 1 0 (by decide)⟩

/-! ## Memory accesses of the blocked kernel (C2) -/

theorem mem_nest_st1 (out : Buf) (n ii jj : Nat) (hii : ii < n) (hjj : jj < n) :
    Ev.st1 out (ii * n + jj) ∈ nest out n := by
  unfold nest
  simp only [List.mem_flatMap]
  refine ⟨16 * (ii / 16), mem_blocks.mpr (by omega), 16 * (jj / 16), mem_blocks.mpr (by omega),
    0, mem_blocks.mpr (by omega), ii, mem_els.mpr (by omega), jj, mem_els.mpr (by omega), ?_⟩
  simp [unit]

/-- Every element in the sixteen-element window that starts at `&c[ii * n + jj]` is
touched by `sme2_matmul`, for each position `(ii, jj)` of the matrix. -/
theorem mem_touched (n ii jj p : Nat) (hii : ii < n) (hjj : jj < n)
    (h1 : ii * n + jj ≤ p) (h2 : p < ii * n + jj + 16) :
    p ∈ (sme2_matmul_trace n).flatMap (Ev.touched Buf.c) := by
  rw [sme2_matmul_trace_blocked, blocked_trace_eq, List.mem_flatMap]
  refine ⟨Ev.st1 Buf.c (ii * n + jj), ?_, ?_⟩
  · simp only [List.mem_append]
    exact Or.inl (Or.inr (mem_nest_st1 Buf.c n ii jj hii hjj))
  · simp only [Ev.touched, Ev.loaded, Ev.stored, tileIdx, List.nil_append, if_true]
    rw [List.mem_range'_1]
    exact ⟨h1, h2⟩

theorem mem_sme2_matmul_macs (n : Nat) (t : Nat × Nat × Nat) (h : t ∈ sme2_matmul_macs n) :
    t.1 < n ∧ t.2.1 < n ∧ t.2.2 < n := by
  rw [sme2_matmul_macs_eq] at h
  have hc := count_nestMacs instBEqProd n t
  by_contra hnot
  rw [if_neg hnot] at hc
  exact (List.count_eq_zero.mp hc) h

/-- Every scalar read of `sme2_matmul` is inside the `n * n` elements of its matrix. -/
theorem scalarReads_in_range (n : Nat) (x : Nat × Nat)
    (hx : x ∈ (sme2_matmul_trace n).flatMap (Ev.scalarReads n)) :
    x.1 < n * n ∧ x.2 < n * n := by
  have key : ∀ u v : Nat, u < n → v < n → u * n + v < n * n := by
    intro u v hu hv
    have : (u + 1) * n ≤ n * n := Nat.mul_le_mul_right n hu
    have e : (u + 1) * n = u * n + n := Nat.succ_mul u n
    omega
  obtain ⟨e, he, hxe⟩ := List.mem_flatMap.mp hx
  cases e with
  | mac ii jj kk =>
    have hm : (ii, jj, kk) ∈ sme2_matmul_macs n :=
      List.mem_filterMap.mpr ⟨Ev.mac ii jj kk, he, rfl⟩
    obtain ⟨h1, h2, h3⟩ := mem_sme2_matmul_macs n _ hm
    simp only [Ev.scalarReads, List.mem_singleton] at hxe
    subst hxe
    exact ⟨key ii kk h1 h3, key kk jj h3 h2⟩
  | _ => simp [Ev.scalarReads] at hxe

/-- C2 (code at failing inputs). For `n = 70` the tile store at `&c[69 * 70 + 69]`
touches element offset `4914` of `c`, outside the `70 * 70 = 4900` elements of the
buffer; for `n = 64`, a multiple of the block size, the tile store at
`&c[63 * 64 + 63]` touches offset `4110`, outside the `4096` elements. -/
theorem sme2_matmul_tile_past_end :
    4914 ∈ (sme2_matmul_trace 70).flatMap (Ev.touched Buf.c) ∧ ¬ 4914 < 70 * 70
    ∧ 4110 ∈ (sme2_matmul_trace 64).flatMap (Ev.touched Buf.c) ∧ ¬ 4110 < 64 * 64 :=
  ⟨mem_touched 70 69 69 4914 (by decide) (by decide) (by decide) (by decide), by decide,
   mem_touched 64 63 63 4110 (by decide) (by decide) (by decide) (by decide), by decide⟩

/-! ## Session discipline (C5) -/

theorem zaRun_append (t1 t2 : List Ev) :
    ∀ z, zaRun z (t1 ++ t2) = (zaRun z t1).bind (fun z => zaRun z t2) := by
  induction t1 with
  | nil => intro z; rfl
  | cons e t1 ih =>
    intro z
    simp only [List.cons_append, zaRun]
    cases zaStep z e with
    | none => rfl
    | some z' => simpa using ih z'

theorem zaRun_tiles (t : List Ev) (h : ∀ e ∈ t, e.isTile = true) :
    zaRun ZA.Active t = some ZA.Active := by
  induction t with
  | nil => rfl
  | cons e t ih =>
    have he : e.isTile = true := h e (List.mem_cons_self _ _)
    have hs : zaStep ZA.Active e = some ZA.Active := by
      cases e <;> simp_all [Ev.isTile, zaStep]
    simp only [zaRun, hs, Option.some_bind]
    exact ih (fun e' he' => h e' (List.mem_cons_of_mem _ he'))

theorem count_smstart_tiles (t : List Ev) (h : ∀ e ∈ t, e.isTile = true) :
    t.count Ev.smstart = 0 := by
  apply List.count_eq_zero.mpr
  intro hm
  simpa [Ev.isTile] using h _ hm

theorem count_smstop_tiles (t : List Ev) (h : ∀ e ∈ t, e.isTile = true) :
    t.count Ev.smstop = 0 := by
  apply List.count_eq_zero.mpr
  intro hm
  simpa [Ev.isTile] using h _ hm

/-- A routine that enters the streaming mode, executes tile operations only, and
leaves the mode keeps the session discipline with one enter and one exit. -/
theorem bracket_disciplined (body : List Ev) (h : ∀ e ∈ body, e.isTile = true) :
    disciplined ([Ev.smstart] ++ body ++ [Ev.smstop])
      ∧ enters ([Ev.smstart] ++ body ++ [Ev.smstop]) = 1
      ∧ exits ([Ev.smstart] ++ body ++ [Ev.smstop]) = 1 := by
  have h1 : enters ([Ev.smstart] ++ body ++ [Ev.smstop]) = 1 := by
    simp [enters, List.count_append, count_smstart_tiles body h, List.count_cons]
  have h2 : exits ([Ev.smstart] ++ body ++ [Ev.smstop]) = 1 := by
    simp [exits, List.count_append, count_smstop_tiles body h, List.count_cons]
  refine ⟨⟨?_, by rw [h1, h2]⟩, h1, h2⟩
  rw [List.append_assoc, zaRun_append]
  simp only [zaRun, zaStep, Option.some_bind]
  rw [zaRun_append, zaRun_tiles body h]
  rfl

theorem disciplined_nil : disciplined [] := ⟨rfl, rfl⟩

theorem disciplined_append (t1 t2 : List Ev) (h1 : disciplined t1) (h2 : disciplined t2) :
    disciplined (t1 ++ t2) := by
  refine ⟨?_, ?_⟩
  · rw [zaRun_append, h1.1]; exact h2.1
  · have e1 := h1.2
    have e2 := h2.2
    simp only [enters, exits, List.count_append] at *
    omega

theorem disciplined_flatMap {ι : Type} (f : ι → List Ev) (l : List ι)
    (h : ∀ x ∈ l, disciplined (f x)) : disciplined (l.flatMap f) := by
  induction l with
  | nil => exact disciplined_nil
  | cons x l ih =>
    rw [List.flatMap_cons]
    exact disciplined_append _ _ (h x (List.mem_cons_self _ _))
      (ih (fun y hy => h y (List.mem_cons_of_mem _ hy)))

theorem tiles_flatMap {ι : Type} (f : ι → List Ev) (l : List ι)
    (h : ∀ x, ∀ e ∈ f x, e.isTile = true) : ∀ e ∈ l.flatMap f, e.isTile = true := by
  intro e he
  obtain ⟨x, _, hx⟩ := List.mem_flatMap.mp he
  exact h x e hx

theorem tiles_nest (out : Buf) (n : Nat) : ∀ e ∈ nest out n, e.isTile = true := by
  unfold nest
  apply tiles_flatMap; intro i
  apply tiles_flatMap; intro j
  apply tiles_flatMap; intro k
  apply tiles_flatMap; intro ii
  apply tiles_flatMap; intro jj
  intro e he
  simp only [unit, List.mem_append, List.mem_singleton, List.mem_flatMap] at he
  rcases he with (rfl | ⟨kk, _, rfl⟩) | rfl <;> rfl

theorem blocked_disciplined (out : Buf) (n : Nat) :
    disciplined (blocked_trace out n) ∧ enters (blocked_trace out n) = 1
      ∧ exits (blocked_trace out n) = 1 := by
  rw [blocked_trace_eq]
  exact bracket_disciplined _ (tiles_nest out n)

/-- A tile loop `for (i = 0; i < len; i += 16)` between `__arm_smstart` and
`__arm_smstop`, as a bracket around the concatenated loop bodies. -/
theorem tile_loop_eq (len fuel : Nat) (f : Nat → List Ev) (hf : len ≤ fuel * 16) :
    forLoop (fun i => decide (i < len)) (· + 16) (fun i t => t ++ f i) fuel 0 [Ev.smstart]
        ++ [Ev.smstop]
      = [Ev.smstart] ++ (List.range' 0 ((len + 15) / 16) 16).flatMap f ++ [Ev.smstop] := by
  rw [forLoop_append f len 16 (by decide) (fun _ => rfl) (fun _ => rfl) (fun _ _ => rfl)
    fuel 0 _ (by omega), iters_block]

theorem memory_bandwidth_trace_units :
    memory_bandwidth_test_trace true
      = [Ev.smstart] ++ (List.range' 0 65536 16).flatMap bandwidthUnit ++ [Ev.smstop] := by
  unfold memory_bandwidth_test_trace
  simp only [Bool.not_true, Bool.false_eq_true, if_false]
  exact tile_loop_eq buffer_size buffer_size bandwidthUnit (by unfold buffer_size; omega)

theorem memory_bandwidth_disciplined (allocOk : Bool) :
    disciplined (memory_bandwidth_test_trace allocOk) := by
  cases allocOk with
  | false => exact disciplined_nil
  | true =>
    rw [memory_bandwidth_trace_units]
    refine (bracket_disciplined _ ?_).1
    apply tiles_flatMap
    intro i e he
    simp only [bandwidthUnit, List.mem_cons, List.mem_singleton, List.not_mem_nil,
      or_false] at he
    rcases he with rfl | rfl <;> rfl

theorem performance_test_disciplined (alloc : Nat → PBuf → Bool) :
    disciplined (performance_test_statements alloc) := by
  unfold performance_test_statements
  apply disciplined_flatMap
  intro e _
  cases e with
  | sme2 size => exact (blocked_disciplined Buf.c size).1
  | _ => exact disciplined_nil

theorem fixed_routines_disciplined :
    disciplined benchmark_sme2_operation_trace
    ∧ disciplined test_za_storage_trace
    ∧ disciplined test_multi_vector_operations_trace
    ∧ disciplined test_matrix_multiplication_trace
    ∧ disciplined testcase_za_basic_ops_trace
    ∧ disciplined testcase_different_data_types_trace
    ∧ disciplined testcase_streaming_data_processing_trace
    ∧ disciplined testcase_mixed_precision_computation_trace := by
  unfold disciplined
  decide!

/-- C5. Session discipline of every kernel, probe and test entry point, called with the
streaming mode Inactive: no enter while Active, no exit while Inactive, no tile
operation while Inactive, return with the mode Inactive, and as many enters as exits.
This holds for `sme2_matmul` at every `n` (with exactly one enter and one exit per
call), for `memory_bandwidth_test` whether or not its allocation succeeds, for
`performance_test` under every outcome of its allocations, and for
`benchmark_sme2_operation`, the three `test_*` and the five `testcase_*` routines. -/
theorem session_discipline (n : Nat) (allocOk : Bool) (alloc : Nat → PBuf → Bool) :
    (disciplined (sme2_matmul_trace n)
      ∧ enters (sme2_matmul_trace n) = 1 ∧ exits (sme2_matmul_trace n) = 1)
    ∧ disciplined (memory_bandwidth_test_trace allocOk)
    ∧ disciplined (performance_test_statements alloc)
    ∧ disciplined benchmark_sme2_operation_trace
    ∧ disciplined test_za_storage_trace
    ∧ disciplined test_multi_vector_operations_trace
    ∧ disciplined test_matrix_multiplication_trace
    ∧ disciplined testcase_za_basic_ops_trace
    ∧ disciplined testcase_different_data_types_trace
    ∧ disciplined testcase_large_matrix_block_processing_trace
    ∧ disciplined testcase_streaming_data_processing_trace
    ∧ disciplined testcase_mixed_precision_computation_trace := by
  obtain ⟨h1, h2, h3, h4, h5, h6, h7, h8⟩ := fixed_routines_disciplined
  refine ⟨blocked_disciplined Buf.c n, memory_bandwidth_disciplined allocOk,
    performance_test_disciplined alloc, h1, h2, h3, h4, h5, h6, ?_, h7, h8⟩
  rw [testcase_large_trace_blocked]
  exact (blocked_disciplined Buf.result 128).1

/-! ## Allocation failure in the harness (C6) -/

/-- C6 (code at a failing input). When the allocation of `matrix_b` fails at size `64`
and every other allocation succeeds, `performance_test` runs no kernel and prints no
result for size `64` and still visits all sixteen sizes, but the three buffers it did
obtain at size `64` are never passed to `free`. -/
theorem performance_test_leaks_on_failure :
    HEv.malloc 64 PBuf.matrix_a true
        ∈ performance_test_trace (fun size which => !(size == 64 && which == PBuf.matrix_b))
    ∧ HEv.free 64 PBuf.matrix_a
        ∉ performance_test_trace (fun size which => !(size == 64 && which == PBuf.matrix_b))
    ∧ leaked (performance_test_trace (fun size which => !(size == 64 && which == PBuf.matrix_b)))
        = [(64, PBuf.matrix_a), (64, PBuf.result_traditional), (64, PBuf.result_sme2)]
    ∧ visited (performance_test_trace (fun size which => !(size == 64 && which == PBuf.matrix_b)))
        = [64, 128, 192, 256, 320, 384, 448, 512, 576, 640, 704, 768, 832, 896, 960, 1024]
    ∧ HEv.traditional 64
        ∉ performance_test_trace (fun size which => !(size == 64 && which == PBuf.matrix_b))
    ∧ HEv.sme2 64
        ∉ performance_test_trace (fun size which => !(size == 64 && which == PBuf.matrix_b))
    ∧ HEv.report 64
        ∉ performance_test_trace (fun size which => !(size == 64 && which == PBuf.matrix_b))
    ∧ leaked (performance_test_trace (fun _ _ => true)) = [] := by
  decide!

/-! ## Tile loops over a whole buffer (C7, C8) -/

/-- Consecutive sixteen-element tiles cover a contiguous range, each element once. -/
theorem flatMap_tileIdx (m : Nat) : ∀ lo : Nat,
    (List.range' lo m 16).flatMap tileIdx = List.range' lo (16 * m) := by
  induction m with
  | zero => intro lo; rfl
  | succ m ih =>
    intro lo
    rw [List.range'_succ, List.flatMap_cons, ih (lo + 16)]
    unfold tileIdx
    have e : 16 * (m + 1) = 16 * m + 16 := by ring
    rw [e, ← List.range'_append_1]

theorem count_range' (lo len p : Nat) :
    (List.range' lo len).count p = if lo ≤ p ∧ p < lo + len then 1 else 0 := by
  by_cases h : lo ≤ p ∧ p < lo + len
  · rw [if_pos h]
    exact List.count_eq_one_of_mem (List.nodup_range' lo len 1 Nat.one_pos)
      (List.mem_range'_1.mpr h)
  · rw [if_neg h]
    exact List.count_eq_zero_of_not_mem (fun hm => h (List.mem_range'_1.mp hm))

theorem testcase_streaming_trace_eq :
    testcase_streaming_data_processing_trace
      = [Ev.smstart] ++ (List.range' 0 64 16).flatMap streamUnit ++ [Ev.smstop] := by
  unfold testcase_streaming_data_processing_trace
  exact tile_loop_eq 1024 1024 streamUnit (by omega)

theorem testcase_streaming_init_inv : streamInv 1024 testcase_streaming_init := by
  unfold testcase_streaming_init
  have h := @forLoop_count_inv (StreamArrays)
    (fun i => decide (i < 1024)) (· + 1)
    (fun i s =>
      { input_stream := Function.update s.input_stream i ((i : ℚ) * (1 / 2))
        output_stream := Function.update s.output_stream i 0 })
    (fun i s => streamInv i s) 1024 (fun _ => rfl) (fun _ => rfl)
  refine h ?_ 1024 0 _ (by omega) (by omega) ?_
  · intro i s _ hP p
    obtain ⟨h1, h2⟩ := hP p
    by_cases hp : p = i
    · subst hp
      simp [Function.update]
    · have e : p < i + 1 ↔ p < i := by omega
      simp [Function.update, hp, h1, h2, e]
  · intro p
    simp

theorem foldl_sstep_unit (input : Nat → ℚ) (i p : Nat) (s : StreamState) :
    ((streamUnit i).foldl (sstep input) s).output_stream p
      = if i ≤ p ∧ p - i < W then input p * 2 else s.output_stream p := by
  by_cases h : i ≤ p ∧ p - i < W
  · have hp : i + (p - i) = p := by omega
    simp [streamUnit, sstep, svst1_f32, svmul_f32, svld1_f32, svdup_f32, h, hp]
  · simp [streamUnit, sstep, svst1_f32, h]

theorem foldl_sstep_flatMap (input : Nat → ℚ) (p : Nat) :
    ∀ (offs : List Nat) (s : StreamState),
      ((offs.flatMap streamUnit).foldl (sstep input) s).output_stream p
        = if offs.any (fun i => decide (i ≤ p ∧ p - i < W)) then input p * 2
          else s.output_stream p := by
  intro offs
  induction offs with
  | nil => intro s; simp
  | cons i offs ih =>
    intro s
    rw [List.flatMap_cons, List.foldl_append, ih, foldl_sstep_unit]
    by_cases h1 : offs.any (fun i => decide (i ≤ p ∧ p - i < W)) <;>
      by_cases h2 : i ≤ p ∧ p - i < W <;> simp [h1, h2]

theorem any_tile_covers (m p : Nat) :
    (List.range' 0 m 16).any (fun i => decide (i ≤ p ∧ p - i < W)) = decide (p < 16 * m) := by
  by_cases h : p < 16 * m
  · rw [decide_eq_true h, List.any_eq_true]
    refine ⟨16 * (p / 16), ?_, ?_⟩
    · rw [List.mem_range']
      exact ⟨p / 16, by omega, by omega⟩
    · have hW : W = 16 := rfl
      simp only [decide_eq_true_eq]; omega
  · rw [decide_eq_false h]
    apply Bool.eq_false_iff.mpr
    intro hany
    rw [List.any_eq_true] at hany
    obtain ⟨i, hi, hc⟩ := hany
    rw [List.mem_range'] at hi
    obtain ⟨k, hk, rfl⟩ := hi
    simp only [decide_eq_true_eq] at hc
    have hW : W = 16 := rfl
    omega

theorem stream_run_units (offs : List Nat) (a : StreamArrays) (p : Nat) :
    (stream_run ([Ev.smstart] ++ offs.flatMap streamUnit ++ [Ev.smstop]) a).output_stream p
      = if offs.any (fun i => decide (i ≤ p ∧ p - i < W)) then a.input_stream p * 2
        else a.output_stream p := by
  unfold stream_run
  simp only [List.foldl_append]
  have h0 : ∀ s : StreamState, [Ev.smstart].foldl (sstep a.input_stream) s = s := fun _ => rfl
  have h1 : ∀ s : StreamState, [Ev.smstop].foldl (sstep a.input_stream) s = s := fun _ => rfl
  rw [h0, h1, foldl_sstep_flatMap]

theorem stream_run_output (a : StreamArrays) (p : Nat) :
    (stream_run testcase_streaming_data_processing_trace a).output_stream p
      = if p < 1024 then a.input_stream p * 2 else a.output_stream p := by
  rw [testcase_streaming_trace_eq, stream_run_units, any_tile_covers]
  simp

theorem count_tagged (bf : Buf) (l : List Nat) (i : Nat) :
    (l.map (fun p => (bf, p))).count (bf, i) = l.count i := by
  induction l with
  | nil => rfl
  | cons x l ih => simp [List.count_cons, ih]

theorem testcase_streaming_eq :
    testcase_streaming_data_processing
      = stream_run testcase_streaming_data_processing_trace testcase_streaming_init := rfl

theorem stream_run_input (t : List Ev) (a : StreamArrays) :
    (stream_run t a).input_stream = a.input_stream := rfl

/-- C7. At the end of `testcase_streaming_data_processing` every element of the
1024-element stream satisfies `output_stream[i] = 2 * input_stream[i]` (with
`input_stream[i] = i * 0.5`, so `output_stream[i] = i`), in particular at the sampled
indices `100` and `500`; the tile loads read exactly the elements `0 .. 1023` of
`input_stream`, the tile stores write exactly the elements `0 .. 1023` of
`output_stream`, each element once, and no other buffer is accessed. -/
theorem streaming_output_doubles_input :
    (∀ i : Nat, testcase_streaming_data_processing.output_stream i
        = if i < 1024 then 2 * testcase_streaming_data_processing.input_stream i else 0)
    ∧ (∀ i : Nat, testcase_streaming_data_processing.input_stream i
        = if i < 1024 then (i : ℚ) * (1 / 2) else 0)
    ∧ (∀ i : Nat, testcase_streaming_data_processing.output_stream i
        = if i < 1024 then (i : ℚ) else 0)
    ∧ testcase_streaming_data_processing.output_stream 100
        = 2 * testcase_streaming_data_processing.input_stream 100
    ∧ testcase_streaming_data_processing.output_stream 500
        = 2 * testcase_streaming_data_processing.input_stream 500
    ∧ testcase_streaming_data_processing_trace.flatMap Ev.stores
        = (List.range 1024).map (fun p => (Buf.output_stream, p))
    ∧ testcase_streaming_data_processing_trace.flatMap Ev.loads
        = (List.range 1024).map (fun p => (Buf.input_stream, p))
    ∧ (∀ i : Nat, (testcase_streaming_data_processing_trace.flatMap Ev.stores).count
        (Buf.output_stream, i) = if i < 1024 then 1 else 0) := by
  have hinv := testcase_streaming_init_inv
  have hin : ∀ i : Nat, testcase_streaming_data_processing.input_stream i
      = if i < 1024 then (i : ℚ) * (1 / 2) else 0 := by
    intro i
    rw [testcase_streaming_eq, stream_run_input]
    exact (hinv i).1
  have hout : ∀ i : Nat, testcase_streaming_data_processing.output_stream i
      = if i < 1024 then 2 * testcase_streaming_data_processing.input_stream i else 0 := by
    intro i
    rw [testcase_streaming_eq, stream_run_input, stream_run_output, (hinv i).2, mul_comm]
  have hst : testcase_streaming_data_processing_trace.flatMap Ev.stores
      = (List.range 1024).map (fun p => (Buf.output_stream, p)) := by
    rw [testcase_streaming_trace_eq]
    simp only [List.flatMap_append, List.flatMap_assoc]
    have e : ∀ i, (streamUnit i).flatMap Ev.stores
        = (tileIdx i).map (fun p => (Buf.output_stream, p)) := by
      intro i; simp [streamUnit, Ev.stores]
    simp only [e]
    rw [← List.map_flatMap, flatMap_tileIdx, List.range_eq_range']
    simp [Ev.stores]
  have hld : testcase_streaming_data_processing_trace.flatMap Ev.loads
      = (List.range 1024).map (fun p => (Buf.input_stream, p)) := by
    rw [testcase_streaming_trace_eq]
    simp only [List.flatMap_append, List.flatMap_assoc]
    have e : ∀ i, (streamUnit i).flatMap Ev.loads
        = (tileIdx i).map (fun p => (Buf.input_stream, p)) := by
      intro i; simp [streamUnit, Ev.loads]
    simp only [e]
    rw [← List.map_flatMap, flatMap_tileIdx, List.range_eq_range']
    simp [Ev.loads]
  refine ⟨hout, hin, ?_, ?_, ?_, hst, hld, ?_⟩
  · intro i
    rw [hout, hin]
    by_cases h : i < 1024
    · simp only [h, if_true]; ring
    · simp only [h, if_false]
  · rw [hout]; simp
  · rw [hout]; simp
  · intro i
    rw [hst, count_tagged, count_range]

/-! ## Memory bandwidth probe (C8) -/

theorem memory_bandwidth_init_eq (m : Nat → ℚ) (p : Nat) :
    memory_bandwidth_init m p = if p < buffer_size then (p : ℚ) else m p := by
  unfold memory_bandwidth_init
  have h := @forLoop_count_inv (Nat → ℚ)
    (fun i => decide (i < buffer_size)) (· + 1)
    (fun i m => Function.update m i (i : ℚ))
    (fun i s => ∀ p, s p = if p < i then (p : ℚ) else m p) buffer_size
    (fun _ => rfl) (fun _ => rfl)
  refine h ?_ buffer_size 0 m (by omega) (by omega) ?_ p
  · intro i s _ hP p
    by_cases hp : p = i
    · subst hp; simp [Function.update]
    · have e : p < i + 1 ↔ p < i := by omega
      simp [Function.update, hp, hP p, e]
  · intro p; simp

theorem foldl_bstep_unit (i : Nat) (s : BwState ℚ) :
    ((bandwidthUnit i).foldl bstep s).buffer = s.buffer := by
  funext p
  by_cases h : i ≤ p ∧ p - i < W
  · have hp : i + (p - i) = p := by omega
    simp [bandwidthUnit, bstep, svst1_f32, svld1_f32, h, hp]
  · simp [bandwidthUnit, bstep, svst1_f32, h]

theorem foldl_bstep_flatMap : ∀ (offs : List Nat) (s : BwState ℚ),
    ((offs.flatMap bandwidthUnit).foldl bstep s).buffer = s.buffer := by
  intro offs
  induction offs with
  | nil => intro s; rfl
  | cons i offs ih =>
    intro s
    rw [List.flatMap_cons, List.foldl_append, ih, foldl_bstep_unit]

theorem bandwidth_run_units (offs : List Nat) (buf : Nat → ℚ) :
    bandwidth_run ([Ev.smstart] ++ offs.flatMap bandwidthUnit ++ [Ev.smstop]) buf = buf := by
  unfold bandwidth_run
  simp only [List.foldl_append]
  have h0 : ∀ s : BwState ℚ, [Ev.smstart].foldl bstep s = s := fun _ => rfl
  have h1 : ∀ s : BwState ℚ, [Ev.smstop].foldl bstep s = s := fun _ => rfl
  rw [h0, h1, foldl_bstep_flatMap]

/-- The tile loop of `memory_bandwidth_test` stores back what it loads. -/
theorem bandwidth_run_eq (buf : Nat → ℚ) :
    bandwidth_run (memory_bandwidth_test_trace true) buf = buf := by
  rw [memory_bandwidth_trace_units, bandwidth_run_units]

/-- C8. In `memory_bandwidth_test` the byte count `buffer_size * sizeof(float) * 2` is
`8,388,608` and equals the bytes the pass loads plus the bytes it stores: the loop
visits the 65,536 tile offsets `0, 16, ..., 1,048,560`, the tiles read exactly the
elements `0 .. 1,048,575` of the buffer and write exactly the same elements, each
once; the buffer still holds `buffer[i] = i` afterwards; and the bandwidth figure
`8,388,608 / elapsed / 2^30` is positive whenever `elapsed` is. -/
theorem memory_bandwidth_accounting (m : Nat → ℚ) (elapsed : ℚ) (helapsed : 0 < elapsed) :
    bytes_processed = 8388608
    ∧ (memory_bandwidth_test_trace true).filterMap Ev.loadOffset = List.range' 0 65536 16
    ∧ (memory_bandwidth_test_trace true).flatMap Ev.loads
        = (List.range 1048576).map (fun p => (Buf.buffer, p))
    ∧ (memory_bandwidth_test_trace true).flatMap Ev.stores
        = (List.range 1048576).map (fun p => (Buf.buffer, p))
    ∧ sizeof_float * (((memory_bandwidth_test_trace true).flatMap Ev.loads).length
        + ((memory_bandwidth_test_trace true).flatMap Ev.stores).length) = bytes_processed
    ∧ (∀ i : Nat, memory_bandwidth_test_buffer m i = if i < 1048576 then (i : ℚ) else m i)
    ∧ bandwidth_gb_s elapsed = 8388608 / elapsed / 2 ^ 30
    ∧ 0 < bandwidth_gb_s elapsed := by
  have hb : bytes_processed = 8388608 := by decide
  have hld : (memory_bandwidth_test_trace true).flatMap Ev.loads
      = (List.range 1048576).map (fun p => (Buf.buffer, p)) := by
    rw [memory_bandwidth_trace_units]
    simp only [List.flatMap_append, List.flatMap_assoc]
    have e : ∀ i, (bandwidthUnit i).flatMap Ev.loads
        = (tileIdx i).map (fun p => (Buf.buffer, p)) := by
      intro i; simp [bandwidthUnit, Ev.loads]
    simp only [e]
    rw [← List.map_flatMap, flatMap_tileIdx, List.range_eq_range']
    simp [Ev.loads]
  have hst : (memory_bandwidth_test_trace true).flatMap Ev.stores
      = (List.range 1048576).map (fun p => (Buf.buffer, p)) := by
    rw [memory_bandwidth_trace_units]
    simp only [List.flatMap_append, List.flatMap_assoc]
    have e : ∀ i, (bandwidthUnit i).flatMap Ev.stores
        = (tileIdx i).map (fun p => (Buf.buffer, p)) := by
      intro i; simp [bandwidthUnit, Ev.stores]
    simp only [e]
    rw [← List.map_flatMap, flatMap_tileIdx, List.range_eq_range']
    simp [Ev.stores]
  have hbw : bandwidth_gb_s elapsed = 8388608 / elapsed / 2 ^ 30 := by
    unfold bandwidth_gb_s
    rw [hb]
    norm_num
  refine ⟨hb, ?_, hld, hst, ?_, ?_, hbw, ?_⟩
  · rw [memory_bandwidth_trace_units]
    simp only [List.filterMap_append, filterMap_flatMap]
    have e : ∀ i, (bandwidthUnit i).filterMap Ev.loadOffset = [i] := by
      intro i; simp [bandwidthUnit, Ev.loadOffset]
    simp only [e, flatMap_singleton_fun]
    simp [Ev.loadOffset]
  · rw [hld, hst, hb]
    simp only [List.length_map, List.length_range]
    decide
  · intro i
    unfold memory_bandwidth_test_buffer
    rw [bandwidth_run_eq, memory_bandwidth_init_eq]
    rfl
  · rw [hbw]
    positivity

/-- The accounting of the bandwidth probe at a concrete measurement: a pass that takes
one second on a zero-filled allocation. -/
theorem memory_bandwidth_accounting_witness :
    (0 : ℚ) < 1
    ∧ bytes_processed = 8388608
    ∧ (memory_bandwidth_test_trace true).filterMap Ev.loadOffset = List.range' 0 65536 16
    ∧ (memory_bandwidth_test_trace true).flatMap Ev.loads
        = (List.range 1048576).map (fun p => (Buf.buffer, p))
    ∧ (memory_bandwidth_test_trace true).flatMap Ev.stores
        = (List.range 1048576).map (fun p => (Buf.buffer, p))
    ∧ sizeof_float * (((memory_bandwidth_test_trace true).flatMap Ev.loads).length
        + ((memory_bandwidth_test_trace true).flatMap Ev.stores).length) = bytes_processed
    ∧ (∀ i : Nat, memory_bandwidth_test_buffer (fun _ => 0) i
        = if i < 1048576 then (i : ℚ) else (fun _ => (0 : ℚ)) i)
    ∧ bandwidth_gb_s 1 = 8388608 / 1 / 2 ^ 30
    ∧ 0 < bandwidth_gb_s 1 :=
  ⟨by norm_num, memory_bandwidth_accounting (fun _ => 0) 1 (by norm_num)⟩

/-! ## Data type samples (C9) -/

/-- C9. In `testcase_different_data_types` every lane of the 8-bit integer result holds
`127 + 127` reduced modulo `2^8` to the signed 8-bit range, which is `-2`; every lane
of the 16-bit float result holds `1.5 * 1.5 = 2.25`; every lane of the 32-bit float
result holds `2.5 * 2.5 = 6.25`; hence the three extracted samples are `-2`, `2.25` and
`6.25`, whichever lane the extraction selects. -/
theorem data_type_samples :
    (∀ l : Fin W8, testcase_different_data_types.result_i8 l = wrap8 (127 + 127))
    ∧ wrap8 (127 + 127) = -2
    ∧ (127 + 127 - wrap8 (127 + 127)) % 2 ^ 8 = 0
    ∧ (∀ l : Fin W16, testcase_different_data_types.result_f16 l = (3 / 2) * (3 / 2))
    ∧ (∀ l : Fin W16, testcase_different_data_types.result_f16 l = 9 / 4)
    ∧ (∀ l : Tile.Lane, testcase_different_data_types.result_f32 l = (5 / 2) * (5 / 2))
    ∧ (∀ l : Tile.Lane, testcase_different_data_types.result_f32 l = 25 / 4)
    ∧ testcase_different_data_types_samples = (-2, 9 / 4, 25 / 4) := by
  have h8 : wrap8 (127 + 127) = -2 := by decide
  have h127 : wrap8 127 = 127 := by decide
  have hi : ∀ l : Fin W8, testcase_different_data_types.result_i8 l = wrap8 (127 + 127) := by
    intro l
    simp [testcase_different_data_types, svadd_s8, svdup_s8, h127]
  have h16 : ∀ l : Fin W16, testcase_different_data_types.result_f16 l = (3 / 2) * (3 / 2) :=
    fun _ => rfl
  have h32 : ∀ l : Tile.Lane, testcase_different_data_types.result_f32 l = (5 / 2) * (5 / 2) :=
    fun _ => rfl
  refine ⟨hi, h8, by rw [h8]; decide, h16, ?_, h32, ?_, ?_⟩
  · intro l; rw [h16]; norm_num
  · intro l; rw [h32]; norm_num
  · unfold testcase_different_data_types_samples svlasta
    rw [hi, h8, h16, h32]
    norm_num

theorem performance_test_trace_eq (alloc : Nat → PBuf → Bool) :
    performance_test_trace alloc = (List.range' 64 16 64).flatMap (sizeSteps alloc) := by
  have hiter : ∀ (e : HEv) (t : List HEv),
      forLoop (fun iter => decide (iter < ITERATIONS)) (· + 1) (fun _ t => t ++ [e])
        ITERATIONS 0 t = t ++ (List.range' 0 10).flatMap (fun _ => [e]) := by
    intro e t
    rw [forLoop_append (fun _ => [e]) ITERATIONS 1 Nat.one_pos (fun _ => rfl)
      (fun _ => rfl) (fun _ _ => rfl) ITERATIONS 0 t (by omega)]
    rfl
  unfold performance_test_trace
  refine (forLoop_append (sizeSteps alloc) 1025 64 (by decide) ?_ (fun _ => rfl) ?_ 16
    MIN_MATRIX_SIZE [] (by decide)).trans ?_
  · intro x
    simp [MAX_MATRIX_SIZE, Nat.lt_succ_iff]
  · intro size t
    simp only [hiter, sizeSteps]
    split <;> simp [List.append_assoc]
  · rfl

/-- Whatever the outcome of the allocations, the sweep of `performance_test` visits the
sixteen sizes `64, 128, ..., 1024`. -/
theorem performance_test_visits_all (alloc : Nat → PBuf → Bool) :
    visited (performance_test_trace alloc)
      = [64, 128, 192, 256, 320, 384, 448, 512, 576, 640, 704, 768, 832, 896, 960, 1024] := by
  rw [performance_test_trace_eq]
  unfold visited
  rw [filterMap_flatMap]
  have e : ∀ size, (sizeSteps alloc size).filterMap HEv.visitSize = [size] := by
    intro size
    unfold sizeSteps
    split <;> simp [List.filterMap_append, List.filterMap_cons, flatMap_singleton_fun,
      HEv.visitSize]
  simp only [e, flatMap_singleton_fun]
  decide

/-- At a size where some allocation of `performance_test` fails no kernel is run and no
result is reported. -/
theorem performance_test_skips_failed (alloc : Nat → PBuf → Bool) (size : Nat)
    (hfail : (!alloc size PBuf.matrix_a || !alloc size PBuf.matrix_b
      || !alloc size PBuf.result_traditional || !alloc size PBuf.result_sme2) = true) :
    HEv.traditional size ∉ performance_test_trace alloc
    ∧ HEv.sme2 size ∉ performance_test_trace alloc
    ∧ HEv.report size ∉ performance_test_trace alloc := by
  rw [performance_test_trace_eq]
  have key : ∀ (s : Nat) (e : HEv), e ∈ sizeSteps alloc s →
      (e = HEv.traditional size ∨ e = HEv.sme2 size ∨ e = HEv.report size) → False := by
    intro s e he hcase
    unfold sizeSteps at he
    by_cases hs : s = size
    · subst hs
      rw [if_pos hfail] at he
      simp only [List.mem_append, List.mem_cons, List.mem_singleton, List.not_mem_nil,
        or_false] at he
      rcases hcase with rfl | rfl | rfl <;> simp at he
    · split at he <;>
        simp only [List.mem_append, List.mem_cons, List.mem_singleton, List.not_mem_nil,
          or_false, List.mem_flatMap] at he <;>
        rcases hcase with rfl | rfl | rfl <;> simp [hs] at he <;>
        first | exact hs he.symm | exact hs he.2.symm
  refine ⟨?_, ?_, ?_⟩ <;>
  · intro hm
    obtain ⟨s, _, hs⟩ := List.mem_flatMap.mp hm
    exact key s _ hs (by simp)

end SME2
